import Mathlib

/-!
Verification development for the tealish compiler (src/tealish/__init__.py).

The Python source is shallowly embedded: each class method that a claim
depends on is translated into an executable Lean definition operating on
explicit state values.  Python dictionaries are modelled as association
lists with Python's insertion-order update semantics (assigning to an
existing key replaces its value in place; assigning to a fresh key
appends it at the end).  Machine integers do not occur (all counters are
unbounded Python ints, modelled as Nat).  Exceptions are modelled with
Except.
-/

namespace Tealish

/-! ### Python dict model -/

/-- Python dict assignment d[k] = v : replace in place if the key exists,
otherwise append the new key at the end (insertion order preserved). -/
def dset {α : Type} : List (String × α) → String → α → List (String × α)
  | [], k, v => [(k, v)]
  | (k', v') :: rest, k, v =>
    if k' = k then (k', v) :: rest else (k', v') :: dset rest k v

/-- Python dict lookup d.get(k): first (unique) binding of the key. -/
def dget {α : Type} : List (String × α) → String → Option α
  | [], _ => none
  | (k', v') :: rest, k => if k' = k then some v' else dget rest k

/-- Python dict.update(other): assign every binding of other in order. -/
def dupdate {α : Type} (m other : List (String × α)) : List (String × α) :=
  other.foldl (fun acc kv => dset acc kv.1 kv.2) m

/-- Same dict-assignment semantics with Nat keys
(used for the source map, keyed by output line number). -/
def dsetN {α : Type} : List (Nat × α) → Nat → α → List (Nat × α)
  | [], k, v => [(k, v)]
  | (k', v') :: rest, k, v =>
    if k' = k then (k', v) :: rest else (k', v') :: dsetN rest k v

/-! ### StackType (class StackType(str, Enum)) -/

inductive StackType where
  | int
  | bytes
  | any
  | none
deriving DecidableEq, Repr

/-! ### TealishCompiler mutable state

Fields of class TealishCompiler that the embedded methods read or write:
output, source_map, current_output_line, level, conditional_count,
max_slot. -/

structure CompilerState where
  output : List String
  source_map : List (Nat × Nat)
  current_output_line : Nat
  level : Nat
  conditional_count : Nat
  max_slot : Nat
deriving Repr, DecidableEq

/-- TealishCompiler.__init__ : output=[], source_map={},
current_output_line=1, level=0, conditional_count=0, max_slot=0. -/
def initState : CompilerState :=
  { output := [], source_map := [], current_output_line := 1,
    level := 0, conditional_count := 0, max_slot := 0 }

/-- The indentation added by TealishCompiler.write: "  " * self.level. -/
def levelIndent (level : Nat) : String :=
  String.mk (List.replicate (2 * level) ' ')

/-- One iteration of the loop in TealishCompiler.write: append the
indented line, record source_map[current_output_line] = line_no,
increment current_output_line. -/
def writeLine (st : CompilerState) (s : String) (line_no : Nat) : CompilerState :=
  { st with
    output := st.output ++ [levelIndent st.level ++ s],
    source_map := dsetN st.source_map st.current_output_line line_no,
    current_output_line := st.current_output_line + 1 }

/-- TealishCompiler.write(lines, line_no).  A bare string argument is
wrapped into a one-element list by the Python code, so the embedding
takes the list form. -/
def write (st : CompilerState) (lines : List String) (line_no : Nat) : CompilerState :=
  lines.foldl (fun acc s => writeLine acc s line_no) st

@[simp] theorem write_nil (st : CompilerState) (ln : Nat) : write st [] ln = st := rfl

theorem write_cons (st : CompilerState) (s : String) (rest : List String) (ln : Nat) :
    write st (s :: rest) ln = write (writeLine st s ln) rest ln := rfl

@[simp] theorem writeLine_output (st : CompilerState) (s : String) (ln : Nat) :
    (writeLine st s ln).output = st.output ++ [levelIndent st.level ++ s] := rfl

@[simp] theorem writeLine_level (st : CompilerState) (s : String) (ln : Nat) :
    (writeLine st s ln).level = st.level := rfl

theorem write_output (st : CompilerState) (lines : List String) (ln : Nat) :
    (write st lines ln).output = st.output ++ lines.map (levelIndent st.level ++ ·) := by
  induction lines generalizing st with
  | nil => simp
  | cons s rest ih =>
    rw [write_cons, ih]
    simp [List.append_assoc]

@[simp] theorem write_level (st : CompilerState) (lines : List String) (ln : Nat) :
    (write st lines ln).level = st.level := by
  induction lines generalizing st with
  | nil => rfl
  | cons s rest ih => rw [write_cons, ih, writeLine_level]

/-! ### C9: source-map invariant of write -/

/-- The invariant claimed for TealishCompiler.write: the source-map keys
are exactly 1, 2, ..., output.length (in order), and the emission
counter current_output_line equals output.length + 1. -/
def WriteInv (st : CompilerState) : Prop :=
  st.source_map.map Prod.fst = List.range' 1 st.output.length ∧
  st.current_output_line = st.output.length + 1

theorem dsetN_fresh {α : Type} (m : List (Nat × α)) (k : Nat) (v : α)
    (h : k ∉ m.map Prod.fst) : dsetN m k v = m ++ [(k, v)] := by
  induction m with
  | nil => rfl
  | cons kv rest ih =>
    simp only [List.map_cons, List.mem_cons] at h
    push_neg at h
    simp only [dsetN]
    rw [if_neg (fun hk => h.1 hk.symm), ih h.2]
    rfl

theorem writeLine_inv (st : CompilerState) (s : String) (ln : Nat)
    (h : WriteInv st) : WriteInv (writeLine st s ln) := by
  obtain ⟨hkeys, hcol⟩ := h
  have hfresh : st.current_output_line ∉ st.source_map.map Prod.fst := by
    rw [hkeys, hcol]
    intro hmem
    have := List.mem_range'.mp hmem
    omega
  constructor
  · show (dsetN st.source_map st.current_output_line ln).map Prod.fst = _
    rw [dsetN_fresh _ _ _ hfresh]
    simp only [List.map_append, List.map_cons, List.map_nil, hkeys, hcol,
      writeLine_output, List.length_append, List.length_cons, List.length_nil]
    rw [List.range'_concat]
    congr 1
    simp
    omega
  · simp only [writeLine, List.length_append, List.length_cons, List.length_nil]
    omega

/-- C9. Every call to TealishCompiler.write preserves the invariant that
the source map has exactly one entry per emitted output line: the keys
are exactly 1 .. output.length and current_output_line =
output.length + 1. -/
theorem write_preserves_sourceMap_inv (st : CompilerState) (lines : List String)
    (ln : Nat) (h : WriteInv st) : WriteInv (write st lines ln) := by
  induction lines generalizing st with
  | nil => exact h
  | cons s rest ih => exact ih _ (writeLine_inv st s ln h)

/-- Witness: the invariant holds for the freshly initialised compiler and
is preserved across a concrete write of two lines. -/
theorem write_preserves_sourceMap_inv_witness :
    WriteInv initState ∧ WriteInv (write initState ["int x = 1", "store 0"] 3) :=
  ⟨⟨rfl, rfl⟩, write_preserves_sourceMap_inv initState ["int x = 1", "store 0"] 3 ⟨rfl, rfl⟩⟩

/-! ### C2: the compile_program driver -/

/-- The exception a compiler stage raises.  ParseError and CompileError
are sibling direct subclasses of Exception (neither catches the other);
other stands for any further Exception subclass. -/
inductive PyExc where
  | parseError (msg : String)
  | compileError (msg : String)
  | other (msg : String)
deriving DecidableEq

/-- Outcome of running a Python entry point: a returned value, process
termination via sys.exit(code) after printing a message, or an exception
escaping the function uncaught (after printing zero or more lines). -/
inductive PyOutcome (α : Type) where
  | returns (a : α)
  | exits (code : Nat) (printed : String)
  | raises (e : PyExc) (printed : List String)
deriving DecidableEq

/-- The three artifacts returned by compile_program on success. -/
structure Artifacts where
  teal : List String
  min_teal : List String
  source_map : List (Nat × Nat)
deriving DecidableEq

/-- compile_program(source): runs compiler.parse() in a try whose
except ParseError clause prints the error and exits the process with
status 1, and whose except Exception clause prints
"Line: " + compiler.line_no and re-raises — so a non-ParseError parse
failure escapes uncaught.  Then runs compiler.compile() in a try that
catches only CompileError (print + sys.exit(1)): a generation-time
exception of any other class, ParseError included, escapes uncaught
with nothing printed.  On success it builds teal = output + [""],
minifies it and returns (teal, min_teal, compiler.source_map).

The parse and generation stages are passed in as their outcomes (the
exception they raise, if any); the expression-level work they do is
irrelevant to the driver contract.  minify_teal and combine_source_maps
live in tealish/utils.py which is not under src/.  Modelled from the
spec: the minifier is "an external minification step consumed as a
black box that also returns its own line-remap", so it is taken as an
explicit total function argument, as is combine_source_maps (whose
result compile_program discards). -/
def compile_program
    (line_no : Nat)
    (parseResult : Except PyExc Unit)
    (compileResult : Except PyExc (List String × List (Nat × Nat)))
    (minify_teal : List String → List String × List (Nat × Nat))
    (combine_source_maps : List (Nat × Nat) → List (Nat × Nat) → List (Nat × Nat)) :
    PyOutcome Artifacts :=
  match parseResult with
  | .error (PyExc.parseError m) => .exits 1 m
  | .error e => .raises e ["Line: " ++ Nat.repr line_no]
  | .ok () =>
    match compileResult with
    | .error (PyExc.compileError m) => .exits 1 m
    | .error e => .raises e []
    | .ok (output, source_map) =>
      let teal := output ++ [""]
      let (min_teal, teal_source_map) := minify_teal teal
      let _ := combine_source_maps teal_source_map source_map
      .returns { teal := teal, min_teal := min_teal, source_map := source_map }

/-- C2 (amended).  The driver returns the three artifacts exactly when
both stages succeed.  A parse-time ParseError and a generation-time
CompileError are printed and the process exits with status 1 with no
artifacts.  Any other parse-time exception is re-raised after the
current line number is printed, and a generation-time exception that is
not a CompileError (ParseError included) escapes the driver uncaught;
in the escape cases too, no artifacts are returned. -/
theorem compile_program_error_channels
    (ln : Nat)
    (m : List String → List String × List (Nat × Nat))
    (cm : List (Nat × Nat) → List (Nat × Nat) → List (Nat × Nat)) :
    (∀ out smap, compile_program ln (.ok ()) (.ok (out, smap)) m cm =
      .returns { teal := out ++ [""], min_teal := (m (out ++ [""])).1,
                 source_map := smap }) ∧
    (∀ msg cr, compile_program ln (.error (PyExc.parseError msg)) cr m cm =
      .exits 1 msg) ∧
    (∀ msg, compile_program ln (.ok ()) (.error (PyExc.compileError msg)) m cm =
      .exits 1 msg) ∧
    (∀ msg cr, compile_program ln (.error (PyExc.compileError msg)) cr m cm =
      .raises (PyExc.compileError msg) ["Line: " ++ Nat.repr ln]) ∧
    (∀ msg cr, compile_program ln (.error (PyExc.other msg)) cr m cm =
      .raises (PyExc.other msg) ["Line: " ++ Nat.repr ln]) ∧
    (∀ msg, compile_program ln (.ok ()) (.error (PyExc.parseError msg)) m cm =
      .raises (PyExc.parseError msg) []) ∧
    (∀ msg, compile_program ln (.ok ()) (.error (PyExc.other msg)) m cm =
      .raises (PyExc.other msg) []) := by
  refine ⟨fun out smap => ?_, fun msg cr => rfl, fun msg => rfl,
    fun msg cr => rfl, fun msg cr => rfl, fun msg => rfl, fun msg => rfl⟩
  show PyOutcome.returns
      { teal := out ++ [""], min_teal := (m (out ++ [""])).1,
        source_map := smap } =
    (PyOutcome.returns
      { teal := out ++ [""], min_teal := (m (out ++ [""])).1,
        source_map := smap } : PyOutcome Artifacts)
  rfl

/-! ### C1: the anonymous-counter for-loop

ForStatement.visit_implicit_counter emits a fixed instruction sequence
around the start/end expressions and the loop body.  To settle the
stack-depth claim the emitted lines are abstracted to instructions of a
small stack machine with the TEAL semantics of the opcodes involved
(label lines and comment lines are no-ops). -/

inductive Instr where
  | pushint (n : Nat)
  | dup
  | pop
  | eq
  | add
  | bnz (l : String)
  | br (l : String)
  | lbl (l : String)
  | comment
deriving DecidableEq, Repr

/-- Position of a label definition in the program. -/
def labelPos (prog : List Instr) (l : String) : Option Nat :=
  prog.findIdx? (fun i => i == Instr.lbl l)

/-- One step of the stack machine.  eq/add pop two values and push one;
bnz pops the condition and branches when it is nonzero; b branches
unconditionally; labels and comments fall through.  none = stuck
(underflow or missing label). -/
def step (prog : List Instr) (pc : Nat) (stack : List Nat) :
    Option (Nat × List Nat) :=
  match prog[pc]? with
  | Option.none => Option.none
  | some i =>
    match i, stack with
    | .pushint n, s => some (pc + 1, n :: s)
    | .dup, x :: s => some (pc + 1, x :: x :: s)
    | .pop, _ :: s => some (pc + 1, s)
    | .eq, x :: y :: s => some (pc + 1, (if y = x then 1 else 0) :: s)
    | .add, x :: y :: s => some (pc + 1, (y + x) :: s)
    | .bnz l, x :: s =>
      if x ≠ 0 then (labelPos prog l).map (fun p => (p, s)) else some (pc + 1, s)
    | .br l, s => (labelPos prog l).map (fun p => (p, s))
    | .lbl _, s => some (pc + 1, s)
    | .comment, s => some (pc + 1, s)
    | _, _ => Option.none

/-- Run the machine with fuel; returns the final stack when control falls
off the end of the program. -/
def run (prog : List Instr) : Nat → Nat → List Nat → Option (List Nat)
  | 0, _, _ => Option.none
  | fuel + 1, pc, stack =>
    if prog.length ≤ pc then some stack
    else
      match step prog pc stack with
      | Option.none => Option.none
      | some (pc', s') => run prog fuel pc' s'

/-- ForStatement.visit_implicit_counter: the exact write sequence, with
each emitted line abstracted to its instruction.  startTeal / endTeal
stand for self.start.teal() / self.end.teal() and bodyTeal for the
instructions emitted by visiting the loop body. -/
def visit_implicit_counter (startTeal endTeal bodyTeal : List Instr)
    (conditional_index : Nat) : List Instr :=
  let start_label := "l" ++ Nat.repr conditional_index ++ "_for"
  let end_label := "l" ++ Nat.repr conditional_index ++ "_end"
  [Instr.comment]
    ++ startTeal
    ++ [Instr.dup]
    ++ [Instr.lbl start_label]
    ++ endTeal
    ++ [Instr.eq]
    ++ [Instr.bnz end_label]
    ++ bodyTeal
    ++ [Instr.pushint 1]
    ++ [Instr.add]
    ++ [Instr.dup]
    ++ [Instr.br start_label]
    ++ [Instr.pop]
    ++ [Instr.lbl end_label]

/-- C1 (code bug).  For the loop "for _ in 0:2:" with an empty
(trivially stack-depth-neutral) body, the emitted "pop" sits between the
unconditional back-branch and the end label, so it is unreachable: the
machine terminates with the residual counter still on the stack (depth
1, not the claimed 0).  The claim's "pops the residual counter value
exactly once after the end label" does not hold of the code. -/
theorem for_implicit_counter_leaks_stack_value :
    run (visit_implicit_counter [Instr.pushint 0] [Instr.pushint 2] [] 0) 100 0 []
      = some [2] ∧
    (visit_implicit_counter [Instr.pushint 0] [Instr.pushint 2] [] 0)[11]?
      = some Instr.pop ∧
    (visit_implicit_counter [Instr.pushint 0] [Instr.pushint 2] [] 0)[12]?
      = some (Instr.lbl "l0_end") := by
  refine ⟨by decide, by decide, by decide⟩

/-! ### C4: Switch.visit -/

/-- One option line of a switch: the teal() code of its value expression
and the name of the block it branches to. -/
structure SwitchOptionM where
  optionTeal : List String
  block_name : String

/-- The four writes performed for one option inside the loop of
Switch.visit: the subject expression code is written again, then the
option expression code, then "==", then "bnz" to the option block. -/
def switchOptionStep (subjectTeal : List String) (label_of : String → String)
    (ln : Nat) (acc : CompilerState) (node : SwitchOptionM) : CompilerState :=
  let acc := write acc subjectTeal ln
  let acc := write acc node.optionTeal ln
  let acc := write acc ["=="] ln
  write acc ["bnz " ++ label_of node.block_name] ln

/-- Switch.visit.  subjectTeal stands for self.expression.teal();
label_of resolves a block name to its label (get_block(name).label);
else_block is the block name of the else clause when present. -/
def switch_visit (st : CompilerState) (line : String) (subjectTeal : List String)
    (options : List SwitchOptionM) (else_block : Option String)
    (label_of : String → String) (ln : Nat) : CompilerState :=
  let st := write st ["// " ++ line] ln
  let st := options.foldl (switchOptionStep subjectTeal label_of ln) st
  match else_block with
  | some bn => write st ["b " ++ label_of bn ++ " // else"] ln
  | Option.none => write st ["err // unexpected value"] ln

theorem switchOptionStep_level (subjectTeal : List String)
    (label_of : String → String) (ln : Nat) (st : CompilerState)
    (node : SwitchOptionM) :
    (switchOptionStep subjectTeal label_of ln st node).level = st.level := by
  simp [switchOptionStep]

theorem switchOptionStep_output (subjectTeal : List String)
    (label_of : String → String) (ln : Nat) (st : CompilerState)
    (node : SwitchOptionM) :
    (switchOptionStep subjectTeal label_of ln st node).output =
      st.output ++
        (subjectTeal ++ node.optionTeal ++ ["==", "bnz " ++ label_of node.block_name]).map
          (levelIndent st.level ++ ·) := by
  simp only [switchOptionStep, write_output, write_level, List.map_append,
    List.append_assoc, List.map_cons, List.map_nil]
  rfl

theorem switch_fold_output (subjectTeal : List String)
    (label_of : String → String) (ln : Nat) (options : List SwitchOptionM)
    (st : CompilerState) :
    ((options.foldl (switchOptionStep subjectTeal label_of ln) st).output =
      st.output ++
        (options.flatMap fun node =>
          subjectTeal ++ node.optionTeal ++ ["==", "bnz " ++ label_of node.block_name]).map
          (levelIndent st.level ++ ·)) ∧
    (options.foldl (switchOptionStep subjectTeal label_of ln) st).level = st.level := by
  induction options generalizing st with
  | nil => simp
  | cons o rest ih =>
    simp only [List.foldl_cons, List.flatMap_cons]
    obtain ⟨iho, ihl⟩ := ih (switchOptionStep subjectTeal label_of ln st o)
    refine ⟨?_, by rw [ihl, switchOptionStep_level]⟩
    rw [iho, switchOptionStep_output, switchOptionStep_level]
    simp [List.append_assoc]

/-- C4.  The code emitted for a switch statement is: the source-line
comment; then, for each option in source order, the subject expression's
full code re-emitted, the option's value expression code, an "==" and a
"bnz" to the named block's label; then an unconditional "b" to the else
block's label when an else clause is present, and the terminal "err"
opcode otherwise. -/
theorem switch_visit_emits_per_option_subject_and_branch
    (st : CompilerState) (line : String) (subjectTeal : List String)
    (options : List SwitchOptionM) (else_block : Option String)
    (label_of : String → String) (ln : Nat) :
    (switch_visit st line subjectTeal options else_block label_of ln).output =
      st.output ++
        (["// " ++ line] ++
         (options.flatMap fun node =>
           subjectTeal ++ node.optionTeal ++
             ["==", "bnz " ++ label_of node.block_name]) ++
         (match else_block with
          | some bn => ["b " ++ label_of bn ++ " // else"]
          | Option.none => ["err // unexpected value"])).map
          (levelIndent st.level ++ ·) := by
  unfold switch_visit
  obtain ⟨ho, hl⟩ := switch_fold_output subjectTeal label_of ln options
    (write st ["// " ++ line] ln)
  cases else_block with
  | none =>
    simp only [write_output, ho, hl, write_level, List.map_append, List.append_assoc,
      List.map_cons, List.map_nil]
  | some bn =>
    simp only [write_output, ho, hl, write_level, List.map_append, List.append_assoc,
      List.map_cons, List.map_nil]

/-! ### C5 / C8: Scope chain, get_slots, find_slot, declare_var

A Scope holds a name (qualified via the ancestor chain), a slot range
(always [0, 200] in the source) and the variable dict name → [slot,
type].  A node's visible scopes (Node.get_scopes) are the current scope
followed by its ancestors, innermost first; the chain is embedded as
that list, with the current scope split off as `cur`. -/

structure ScopeE where
  name : String
  slot_range : Nat × Nat
  slots : List (String × Nat × StackType)
deriving DecidableEq, Repr

/-- Node.get_slots: slots = {}; for s in self.get_scopes():
slots.update(s.slots).  The scopes are iterated innermost first, so a
later (outer) scope's binding overwrites an inner one in the merged
dict. -/
def get_slots (chain : List ScopeE) : List (String × Nat × StackType) :=
  chain.foldl (fun acc sc => dupdate acc sc.slots) []

/-- Node.get_var: the merged dict lookup (returns (None, None) when
absent, modelled as Option). -/
def get_var (chain : List ScopeE) (name : String) : Option (Nat × StackType) :=
  dget (get_slots chain) name

/-- Python's substring test (needle in haystack), used for the
"func__" in scope.name check of Node.declare_var. -/
def hasPre : List Char → List Char → Bool
  | [], _ => true
  | _ :: _, [] => false
  | p :: ps, c :: cs => p == c && hasPre ps cs

def containsSub : List Char → List Char → Bool
  | [], pat => hasPre pat []
  | c :: rest, pat => hasPre pat (c :: rest) || containsSub rest pat

def pyIn (pat s : String) : Bool := containsSub s.data pat.data

/-- Node.find_slot: min, max = scope.slot_range; a 255-entry used_slots
table is filled from every variable visible from the chain (a slot index
≥ 255 would raise an IndexError in the Python list assignment); the
first unused index i with min ≤ i ≤ max is returned, and "No available
slots!" is raised when the scan finds none. -/
def find_slot (cur : ScopeE) (parents : List ScopeE) : Except String Nat :=
  let mn := cur.slot_range.1
  let mx := cur.slot_range.2
  let slots := get_slots (cur :: parents)
  if slots.any (fun kv => 255 ≤ kv.2.1) then
    Except.error "IndexError: list assignment index out of range"
  else
    match (List.range 255).find?
        (fun i => !(slots.any (fun kv => kv.2.1 == i))
          && decide (mn ≤ i) && decide (i ≤ mx)) with
    | some i => Except.ok i
    | Option.none => Except.error "No available slots!"

/-- Node.declare_var: fails when the name already resolves anywhere in
the chain; otherwise the slot is compiler.max_slot + 1 when the current
scope's qualified name contains "func__", else the first-fit slot;
compiler.max_slot is raised to the new slot and the binding is added to
the current scope's dict.  Returns (slot, updated current scope, updated
max_slot). -/
def declare_var (maxSlot : Nat) (cur : ScopeE) (parents : List ScopeE)
    (name : String) (ty : StackType) : Except String (Nat × ScopeE × Nat) :=
  match get_var (cur :: parents) name with
  | some _ => Except.error ("Redefinition of variable " ++ name)
  | Option.none =>
    let slotRes : Except String Nat :=
      if pyIn "func__" cur.name then Except.ok (maxSlot + 1)
      else find_slot cur parents
    match slotRes with
    | Except.error e => Except.error e
    | Except.ok slot =>
      Except.ok (slot, { cur with slots := dset cur.slots name (slot, ty) },
        max maxSlot slot)

/-- Node.del_var: removes the binding from the exact current scope only. -/
def del_var (cur : ScopeE) (name : String) : ScopeE :=
  { cur with slots := cur.slots.filter (fun kv => ¬(kv.1 = name)) }

/-! #### Dict lemmas -/

theorem dget_dset {α : Type} (m : List (String × α)) (k k' : String) (v : α) :
    dget (dset m k v) k' = if k' = k then some v else dget m k' := by
  induction m with
  | nil =>
    simp only [dset, dget]
    by_cases h : k = k'
    · rw [if_pos h, if_pos h.symm]
    · rw [if_neg h, if_neg (fun h' => h h'.symm)]
  | cons kv rest ih =>
    obtain ⟨k0, v0⟩ := kv
    simp only [dset]
    by_cases h0 : k0 = k
    · subst h0
      rw [if_pos rfl]
      simp only [dget]
      by_cases h1 : k0 = k'
      · rw [if_pos h1, if_pos h1.symm]
      · rw [if_neg h1, if_neg (fun h : k' = k0 => h1 h.symm), if_neg h1]
    · rw [if_neg h0]
      simp only [dget, ih]
      by_cases h1 : k0 = k'
      · rw [if_pos h1, if_neg (fun h : k' = k => h0 (h1.trans h)), if_pos h1]
      · rw [if_neg h1, if_neg h1]

theorem mem_keys_dset {α : Type} (m : List (String × α)) (k k' : String) (v : α) :
    k' ∈ (dset m k v).map Prod.fst ↔ k' ∈ m.map Prod.fst ∨ k' = k := by
  induction m with
  | nil => simp [dset]
  | cons kv rest ih =>
    obtain ⟨k0, v0⟩ := kv
    simp only [dset]
    by_cases h0 : k0 = k
    · subst h0
      rw [if_pos rfl]
      simp only [List.map_cons, List.mem_cons]
      tauto
    · rw [if_neg h0]
      simp only [List.map_cons, List.mem_cons, ih]
      tauto

theorem dset_keys_nodup {α : Type} (m : List (String × α)) (k : String) (v : α)
    (h : (m.map Prod.fst).Nodup) : ((dset m k v).map Prod.fst).Nodup := by
  induction m with
  | nil => simp [dset]
  | cons kv rest ih =>
    obtain ⟨k0, v0⟩ := kv
    simp only [List.map_cons, List.nodup_cons] at h
    simp only [dset]
    by_cases h0 : k0 = k
    · subst h0
      rw [if_pos rfl]
      simp only [List.map_cons, List.nodup_cons]
      exact ⟨h.1, h.2⟩
    · rw [if_neg h0]
      simp only [List.map_cons, List.nodup_cons]
      refine ⟨fun hmem => ?_, ih h.2⟩
      rw [mem_keys_dset] at hmem
      rcases hmem with hmem | hmem
      · exact h.1 hmem
      · exact h0 hmem

theorem dget_eq_none_iff {α : Type} (m : List (String × α)) (k : String) :
    dget m k = Option.none ↔ k ∉ m.map Prod.fst := by
  induction m with
  | nil => simp [dget]
  | cons kv rest ih =>
    obtain ⟨k0, v0⟩ := kv
    simp only [dget, List.map_cons, List.mem_cons]
    by_cases h0 : k0 = k
    · subst h0
      simp
    · rw [if_neg h0, ih]
      constructor
      · intro h hmem
        rcases hmem with hmem | hmem
        · exact h0 hmem.symm
        · exact h hmem
      · intro h hmem
        exact h (Or.inr hmem)

theorem dget_eq_some_iff {α : Type} (m : List (String × α)) (k : String) (v : α)
    (h : (m.map Prod.fst).Nodup) : dget m k = some v ↔ (k, v) ∈ m := by
  induction m with
  | nil => simp [dget]
  | cons kv rest ih =>
    obtain ⟨k0, v0⟩ := kv
    simp only [List.map_cons, List.nodup_cons] at h
    simp only [dget, List.mem_cons]
    by_cases h0 : k0 = k
    · subst h0
      rw [if_pos rfl]
      constructor
      · intro hv
        exact Or.inl (by cases hv; rfl)
      · rintro (hv | hv)
        · cases hv; rfl
        · exact absurd (List.mem_map_of_mem Prod.fst hv) h.1
    · rw [if_neg h0, ih h.2]
      constructor
      · exact fun hv => Or.inr hv
      · rintro (hv | hv)
        · cases hv; exact absurd rfl h0
        · exact hv

theorem dget_dupdate {α : Type} (other : List (String × α))
    (m : List (String × α)) (k : String) (h : (other.map Prod.fst).Nodup) :
    dget (dupdate m other) k =
      match dget other k with
      | some v => some v
      | Option.none => dget m k := by
  induction other generalizing m with
  | nil => simp [dupdate, dget]
  | cons kv rest ih =>
    obtain ⟨k0, v0⟩ := kv
    simp only [List.map_cons, List.nodup_cons] at h
    show dget (dupdate (dset m k0 v0) rest) k = _
    rw [ih _ h.2]
    simp only [dget]
    by_cases h1 : k0 = k
    · subst h1
      have hn : dget rest k0 = Option.none := (dget_eq_none_iff _ _).mpr h.1
      rw [hn]
      simp [dget_dset]
    · rw [if_neg h1]
      cases hdr : dget rest k with
      | some v => rfl
      | none =>
        simp only [dget_dset, if_neg (fun h' : k = k0 => h1 h'.symm)]

theorem dupdate_keys_nodup {α : Type} (other m : List (String × α))
    (h : (m.map Prod.fst).Nodup) : ((dupdate m other).map Prod.fst).Nodup := by
  induction other generalizing m with
  | nil => exact h
  | cons kv rest ih => exact ih _ (dset_keys_nodup m kv.1 kv.2 h)

/-- The outward walk a lookup amounts to: because the merge iterates
innermost-first and later dict updates overwrite, the outermost scope
containing the name wins, so a parent binding is consulted first. -/
def chainLookup : List ScopeE → String → Option (Nat × StackType)
  | [], _ => Option.none
  | sc :: rest, k =>
    match chainLookup rest k with
    | some v => some v
    | Option.none => dget sc.slots k

theorem get_slots_keys_nodup (chain : List ScopeE) :
    ((get_slots chain).map Prod.fst).Nodup := by
  unfold get_slots
  have : ∀ m : List (String × Nat × StackType), (m.map Prod.fst).Nodup →
      ((chain.foldl (fun acc sc => dupdate acc sc.slots) m).map Prod.fst).Nodup := by
    induction chain with
    | nil => exact fun m h => h
    | cons sc rest ih =>
      exact fun m h => ih _ (dupdate_keys_nodup sc.slots m h)
  exact this [] (by simp)

theorem dget_foldl_dupdate (chain : List ScopeE)
    (hWF : ∀ sc ∈ chain, (sc.slots.map Prod.fst).Nodup)
    (m : List (String × Nat × StackType)) (k : String) :
    dget (chain.foldl (fun acc sc => dupdate acc sc.slots) m) k =
      match chainLookup chain k with
      | some v => some v
      | Option.none => dget m k := by
  induction chain generalizing m with
  | nil => rfl
  | cons sc rest ih =>
    show dget (rest.foldl _ (dupdate m sc.slots)) k = _
    rw [ih (fun s hs => hWF s (List.mem_cons_of_mem sc hs)) (dupdate m sc.slots)]
    simp only [chainLookup]
    cases hcr : chainLookup rest k with
    | some v => rfl
    | none =>
      simp only
      rw [dget_dupdate sc.slots m k (hWF sc (List.mem_cons_self sc rest))]
      cases dget sc.slots k <;> rfl

/-- Scope lookup walks outward through the chain; with well-formed scope
dicts the merged-dict lookup used by get_var is the outermost match. -/
theorem get_var_eq_chainLookup (chain : List ScopeE)
    (hWF : ∀ sc ∈ chain, (sc.slots.map Prod.fst).Nodup) (k : String) :
    get_var chain k = chainLookup chain k := by
  unfold get_var get_slots
  rw [dget_foldl_dupdate chain hWF [] k]
  cases chainLookup chain k <;> rfl

theorem find?_range_eq_some (p : Nat → Bool) (n i : Nat) :
    (List.range n).find? p = some i ↔
      (i < n ∧ p i = true ∧ ∀ j < i, p j = false) := by
  induction n with
  | zero => simp
  | succ n ih =>
    rw [List.range_succ, List.find?_append]
    constructor
    · intro h
      cases hfn : (List.range n).find? p with
      | some x =>
        rw [hfn] at h
        simp only [Option.or_some] at h
        cases h
        obtain ⟨h1, h2, h3⟩ := ih.mp hfn
        exact ⟨Nat.lt_succ_of_lt h1, h2, h3⟩
      | none =>
        rw [hfn] at h
        simp only [Option.none_or] at h
        by_cases hp : p n = true
        · rw [List.find?_cons_of_pos _ hp] at h
          have hni : n = i := by injection h
          have hall := List.find?_eq_none.mp hfn
          refine ⟨by omega, hni ▸ hp, fun j hj => ?_⟩
          have hj' : j < n := by omega
          have := hall j (List.mem_range.mpr hj')
          simpa using this
        · rw [List.find?_cons_of_neg _ hp] at h
          simp at h
    · rintro ⟨h1, h2, h3⟩
      by_cases hn : i < n
      · rw [ih.mpr ⟨hn, h2, h3⟩]
        rfl
      · have hi : i = n := by omega
        have hfn : (List.range n).find? p = Option.none :=
          List.find?_eq_none.mpr (fun x hx => by
            have hx' := List.mem_range.mp hx
            simp [h3 x (by omega)])
        rw [hfn, Option.none_or, hi]
        exact List.find?_cons_of_pos _ (hi ▸ h2)

/-- A slot index is free when no variable visible from the chain uses it. -/
def FreeSlot (chain : List ScopeE) (i : Nat) : Prop :=
  ∀ kv ∈ get_slots chain, kv.2.1 ≠ i

instance (chain : List ScopeE) (i : Nat) : Decidable (FreeSlot chain i) := by
  unfold FreeSlot
  infer_instance

/-- No two variables visible from the chain share a slot index. -/
def DistinctSlots (chain : List ScopeE) : Prop :=
  (get_slots chain).Pairwise (fun a b => a.2.1 ≠ b.2.1)

instance (chain : List ScopeE) : Decidable (DistinctSlots chain) := by
  unfold DistinctSlots
  exact List.instDecidablePairwise _

/-- Every slot visible from the chain is at most m. -/
def SlotsBounded (chain : List ScopeE) (m : Nat) : Prop :=
  ∀ kv ∈ get_slots chain, kv.2.1 ≤ m

instance (chain : List ScopeE) (m : Nat) : Decidable (SlotsBounded chain m) := by
  unfold SlotsBounded
  infer_instance

/-- Node.find_slot returns the smallest free in-range slot and raises
the exhaustion error exactly when no in-range slot is free (given that
the visible slots and the range cap stay below the 255-entry used_slots
table, as they do for every non-subroutine scope in the source, whose
range is always [0, 200]). -/
theorem find_slot_spec (cur : ScopeE) (parents : List ScopeE)
    (h255 : ∀ kv ∈ get_slots (cur :: parents), kv.2.1 < 255)
    (hmx : cur.slot_range.2 < 255) :
    (∀ i, find_slot cur parents = Except.ok i ↔
      (cur.slot_range.1 ≤ i ∧ i ≤ cur.slot_range.2 ∧ FreeSlot (cur :: parents) i ∧
        ∀ j, cur.slot_range.1 ≤ j → j ≤ cur.slot_range.2 →
          FreeSlot (cur :: parents) j → i ≤ j)) ∧
    (find_slot cur parents = Except.error "No available slots!" ↔
      ∀ i, cur.slot_range.1 ≤ i → i ≤ cur.slot_range.2 →
        ¬FreeSlot (cur :: parents) i) := by
  have hany : (get_slots (cur :: parents)).any (fun kv => 255 ≤ kv.2.1) = false := by
    rw [← Bool.not_eq_true, List.any_eq_true]
    rintro ⟨kv, hkv, hle⟩
    have := h255 kv hkv
    simp at hle
    omega
  have hp : ∀ i, ((fun i =>
      !((get_slots (cur :: parents)).any (fun kv => kv.2.1 == i))
        && decide (cur.slot_range.1 ≤ i) && decide (i ≤ cur.slot_range.2)) i = true)
      ↔ (FreeSlot (cur :: parents) i ∧
          cur.slot_range.1 ≤ i ∧ i ≤ cur.slot_range.2) := by
    intro i
    simp only [Bool.and_eq_true, Bool.not_eq_true', decide_eq_true_eq,
      List.any_eq_false, FreeSlot]
    constructor
    · rintro ⟨⟨hfree, h1⟩, h2⟩
      exact ⟨fun kv hkv => by simpa using hfree kv hkv, h1, h2⟩
    · rintro ⟨hfree, h1, h2⟩
      exact ⟨⟨fun kv hkv => by simpa using hfree kv hkv, h1⟩, h2⟩
  unfold find_slot
  rw [if_neg (by rw [hany]; exact Bool.false_ne_true)]
  cases hf : (List.range 255).find?
      (fun i => !((get_slots (cur :: parents)).any (fun kv => kv.2.1 == i))
        && decide (cur.slot_range.1 ≤ i) && decide (i ≤ cur.slot_range.2)) with
  | some k =>
    obtain ⟨hk255, hpk, hmin⟩ := (find?_range_eq_some _ _ _).mp hf
    obtain ⟨hkfree, hk1, hk2⟩ := (hp k).mp hpk
    constructor
    · intro i
      simp only [Except.ok.injEq]
      constructor
      · rintro rfl
        refine ⟨hk1, hk2, hkfree, fun j hj1 hj2 hjfree => ?_⟩
        by_contra hlt
        push_neg at hlt
        have := hmin j hlt
        rw [← Bool.not_eq_true] at this
        exact this ((hp j).mpr ⟨hjfree, hj1, hj2⟩)
      · rintro ⟨hi1, hi2, hifree, himin⟩
        have h1 : k ≤ i := by
          by_contra hlt
          push_neg at hlt
          have := hmin i hlt
          rw [← Bool.not_eq_true] at this
          exact this ((hp i).mpr ⟨hifree, hi1, hi2⟩)
        have h2 : i ≤ k := himin k hk1 hk2 hkfree
        omega
    · constructor
      · intro h
        exact absurd h (by simp)
      · intro hall
        exact absurd hkfree (hall k hk1 hk2)
  | none =>
    have hall := List.find?_eq_none.mp hf
    constructor
    · intro i
      constructor
      · intro h
        exact absurd h (by simp)
      · rintro ⟨hi1, hi2, hifree, _⟩
        have hi255 : i < 255 := by omega
        have := hall i (List.mem_range.mpr hi255)
        exact absurd ((hp i).mpr ⟨hifree, hi1, hi2⟩) this
    · constructor
      · intro _ i hi1 hi2 hifree
        have hi255 : i < 255 := by omega
        have := hall i (List.mem_range.mpr hi255)
        exact this ((hp i).mpr ⟨hifree, hi1, hi2⟩)
      · intro _
        rfl

theorem find_slot_cases (cur : ScopeE) (parents : List ScopeE)
    (h255 : ∀ kv ∈ get_slots (cur :: parents), kv.2.1 < 255) :
    (∃ i, find_slot cur parents = Except.ok i) ∨
      find_slot cur parents = Except.error "No available slots!" := by
  have hany : (get_slots (cur :: parents)).any (fun kv => 255 ≤ kv.2.1) = false := by
    rw [← Bool.not_eq_true, List.any_eq_true]
    rintro ⟨kv, hkv, hle⟩
    have := h255 kv hkv
    simp at hle
    omega
  unfold find_slot
  rw [if_neg (by rw [hany]; exact Bool.false_ne_true)]
  cases (List.range 255).find?
      (fun i => !((get_slots (cur :: parents)).any (fun kv => kv.2.1 == i))
        && decide (cur.slot_range.1 ≤ i) && decide (i ≤ cur.slot_range.2)) with
  | some k => exact Or.inl ⟨k, rfl⟩
  | none => exact Or.inr rfl

theorem pairwise_slots_iff_dget (m : List (String × Nat × StackType))
    (h : (m.map Prod.fst).Nodup) :
    m.Pairwise (fun a b => a.2.1 ≠ b.2.1) ↔
      ∀ k1 k2 v1 v2, dget m k1 = some v1 → dget m k2 = some v2 → k1 ≠ k2 →
        v1.1 ≠ v2.1 := by
  constructor
  · intro hpw k1 k2 v1 v2 h1 h2 hne
    have m1 : (k1, v1) ∈ m := (dget_eq_some_iff m k1 v1 h).mp h1
    have m2 : (k2, v2) ∈ m := (dget_eq_some_iff m k2 v2 h).mp h2
    have hne' : (k1, v1) ≠ (k2, v2) := fun hh => hne (congrArg Prod.fst hh)
    exact List.Pairwise.forall (fun a b hab => Ne.symm hab) hpw m1 m2 hne'
  · intro hfun
    have hkeys : m.Pairwise (fun a b => a.1 ≠ b.1) := List.pairwise_map.mp h
    refine hkeys.imp_of_mem ?_
    intro a b ha hb hab
    refine hfun a.1 b.1 a.2 b.2 ?_ ?_ hab
    · exact (dget_eq_some_iff m a.1 a.2 h).mpr (by simpa using ha)
    · exact (dget_eq_some_iff m b.1 b.2 h).mpr (by simpa using hb)

theorem get_var_declare (cur : ScopeE) (parents : List ScopeE) (name : String)
    (slot : Nat) (ty : StackType)
    (hWF : ∀ sc ∈ cur :: parents, (sc.slots.map Prod.fst).Nodup)
    (hfresh : get_var (cur :: parents) name = Option.none) (n : String) :
    get_var ({ cur with slots := dset cur.slots name (slot, ty) } :: parents) n =
      if n = name then some (slot, ty) else get_var (cur :: parents) n := by
  have hWFcur := hWF cur (List.mem_cons_self _ _)
  have hWF' : ∀ sc ∈ ({ cur with slots := dset cur.slots name (slot, ty) } :: parents),
      (sc.slots.map Prod.fst).Nodup := by
    intro sc hsc
    rcases List.mem_cons.mp hsc with rfl | hsc
    · exact dset_keys_nodup _ _ _ hWFcur
    · exact hWF sc (List.mem_cons_of_mem _ hsc)
  rw [get_var_eq_chainLookup _ hWF' n]
  rw [get_var_eq_chainLookup _ hWF n]
  rw [get_var_eq_chainLookup _ hWF name] at hfresh
  simp only [chainLookup] at hfresh ⊢
  cases hcp : chainLookup parents name with
  | some v =>
    rw [hcp] at hfresh
    simp at hfresh
  | none =>
    rw [hcp] at hfresh
    simp only at hfresh
    by_cases hnn : n = name
    · subst hnn
      rw [hcp]
      simp only [dget_dset, if_pos rfl]
    · rw [if_neg hnn]
      cases hn : chainLookup parents n with
      | some v => rfl
      | none =>
        simp only [dget_dset, if_neg hnn]

theorem declare_preserves_distinct (cur : ScopeE) (parents : List ScopeE)
    (name : String) (ty : StackType) (slot maxSlot max' : Nat)
    (hWF : ∀ sc ∈ cur :: parents, (sc.slots.map Prod.fst).Nodup)
    (hfresh : get_var (cur :: parents) name = Option.none)
    (hdist : DistinctSlots (cur :: parents))
    (hbound : SlotsBounded (cur :: parents) maxSlot)
    (hfree : FreeSlot (cur :: parents) slot)
    (hmax' : max' = max maxSlot slot) :
    DistinctSlots ({ cur with slots := dset cur.slots name (slot, ty) } :: parents) ∧
    SlotsBounded ({ cur with slots := dset cur.slots name (slot, ty) } :: parents) max' := by
  have hnodupNew := get_slots_keys_nodup
    ({ cur with slots := dset cur.slots name (slot, ty) } :: parents)
  have hnodupOld := get_slots_keys_nodup (cur :: parents)
  have hfunOld := (pairwise_slots_iff_dget _ hnodupOld).mp hdist
  have hchar := get_var_declare cur parents name slot ty hWF hfresh
  constructor
  · refine (pairwise_slots_iff_dget _ hnodupNew).mpr ?_
    intro k1 k2 v1 v2 d1 d2 hne
    have e1 : get_var ({ cur with slots := dset cur.slots name (slot, ty) } :: parents) k1
        = some v1 := d1
    have e2 : get_var ({ cur with slots := dset cur.slots name (slot, ty) } :: parents) k2
        = some v2 := d2
    rw [hchar k1] at e1
    rw [hchar k2] at e2
    by_cases b1 : k1 = name <;> by_cases b2 : k2 = name
    · exact absurd (b1.trans b2.symm) hne
    · rw [if_pos b1] at e1
      rw [if_neg b2] at e2
      have hv1 : v1 = (slot, ty) := by injection e1 with e1; exact e1.symm
      have hv2 := hfree (k2, v2) ((dget_eq_some_iff _ _ _ hnodupOld).mp e2)
      rw [hv1]
      exact fun hh => hv2 hh.symm
    · rw [if_neg b1] at e1
      rw [if_pos b2] at e2
      have hv2 : v2 = (slot, ty) := by injection e2 with e2; exact e2.symm
      have hv1 := hfree (k1, v1) ((dget_eq_some_iff _ _ _ hnodupOld).mp e1)
      rw [hv2]
      exact hv1
    · rw [if_neg b1] at e1
      rw [if_neg b2] at e2
      exact hfunOld k1 k2 v1 v2 e1 e2 hne
  · intro kv hkv
    have d : dget (get_slots ({ cur with slots := dset cur.slots name (slot, ty) } :: parents)) kv.1
        = some kv.2 := (dget_eq_some_iff _ _ _ hnodupNew).mpr (by simpa using hkv)
    have e : get_var ({ cur with slots := dset cur.slots name (slot, ty) } :: parents) kv.1
        = some kv.2 := d
    rw [hchar kv.1] at e
    by_cases b : kv.1 = name
    · rw [if_pos b] at e
      have hv : kv.2 = (slot, ty) := by injection e with e; exact e.symm
      rw [hv, hmax']
      exact Nat.le_max_right _ _
    · rw [if_neg b] at e
      have := hbound (kv.1, kv.2) ((dget_eq_some_iff _ _ _ hnodupOld).mp e)
      rw [hmax']
      exact le_trans this (Nat.le_max_left _ _)

/-- C5.  Node.declare_var allocation policy: (1) in a scope whose
qualified name contains "func__" (a subroutine-local scope) the slot is
the global high-water mark compiler.max_slot + 1, strictly above every
slot visible (and, by the bound, every slot allocated anywhere before);
(2) in any other scope it returns the smallest index of the scope's
permitted range not used by any variable visible from the chain, and
raises the exhaustion error exactly when no in-range index is free;
(3) a successful declaration updates the scope and high-water mark and
preserves the invariant that no two visible variables share a slot. -/
theorem declare_var_allocation_policy
    (cur : ScopeE) (parents : List ScopeE) (name : String) (ty : StackType)
    (maxSlot : Nat)
    (hWF : ∀ sc ∈ cur :: parents, (sc.slots.map Prod.fst).Nodup)
    (hfresh : get_var (cur :: parents) name = Option.none)
    (h255 : ∀ kv ∈ get_slots (cur :: parents), kv.2.1 < 255)
    (hmx : cur.slot_range.2 < 255)
    (hbound : SlotsBounded (cur :: parents) maxSlot)
    (hdist : DistinctSlots (cur :: parents)) :
    (pyIn "func__" cur.name = true →
      declare_var maxSlot cur parents name ty =
        Except.ok (maxSlot + 1,
          { cur with slots := dset cur.slots name (maxSlot + 1, ty) },
          maxSlot + 1) ∧
      ∀ kv ∈ get_slots (cur :: parents), kv.2.1 < maxSlot + 1) ∧
    (pyIn "func__" cur.name = false →
      (∀ i, declare_var maxSlot cur parents name ty =
          Except.ok (i, { cur with slots := dset cur.slots name (i, ty) },
            max maxSlot i) ↔
        (cur.slot_range.1 ≤ i ∧ i ≤ cur.slot_range.2 ∧
          FreeSlot (cur :: parents) i ∧
          ∀ j, cur.slot_range.1 ≤ j → j ≤ cur.slot_range.2 →
            FreeSlot (cur :: parents) j → i ≤ j)) ∧
      (declare_var maxSlot cur parents name ty =
          Except.error "No available slots!" ↔
        ∀ i, cur.slot_range.1 ≤ i → i ≤ cur.slot_range.2 →
          ¬FreeSlot (cur :: parents) i)) ∧
    (∀ slot cur' max',
      declare_var maxSlot cur parents name ty = Except.ok (slot, cur', max') →
      cur' = { cur with slots := dset cur.slots name (slot, ty) } ∧
      max' = max maxSlot slot ∧
      DistinctSlots (cur' :: parents) ∧ SlotsBounded (cur' :: parents) max') := by
  have hdv : declare_var maxSlot cur parents name ty =
      (match (if pyIn "func__" cur.name then Except.ok (maxSlot + 1)
          else find_slot cur parents : Except String Nat) with
        | Except.error e => Except.error e
        | Except.ok slot =>
            Except.ok (slot, { cur with slots := dset cur.slots name (slot, ty) },
              max maxSlot slot)) := by
    unfold declare_var
    rw [hfresh]
  obtain ⟨spec1, spec2⟩ := find_slot_spec cur parents h255 hmx
  refine ⟨?_, ?_, ?_⟩
  · intro hfunc
    constructor
    · rw [hdv, if_pos hfunc]
      simp [max_eq_right (Nat.le_succ maxSlot)]
    · intro kv hkv
      have := hbound kv hkv
      omega
  · intro hfunc
    have hnf : ¬(pyIn "func__" cur.name = true) := by
      rw [hfunc]
      exact Bool.false_ne_true
    constructor
    · intro i
      rw [hdv, if_neg hnf]
      rcases find_slot_cases cur parents h255 with ⟨k, hk⟩ | hk
      · rw [hk]
        constructor
        · intro h
          simp only [Except.ok.injEq, Prod.mk.injEq] at h
          obtain ⟨hki, -⟩ := h
          rw [← hki]
          exact (spec1 k).mp hk
        · intro hchar
          have hfi : find_slot cur parents = Except.ok i := (spec1 i).mpr hchar
          rw [hk] at hfi
          injection hfi with hfi
          rw [hfi]
      · rw [hk]
        constructor
        · intro h
          exact absurd h (by simp)
        · intro hchar
          have hfi : find_slot cur parents = Except.ok i := (spec1 i).mpr hchar
          rw [hk] at hfi
          exact absurd hfi (by simp)
    · rw [hdv, if_neg hnf]
      rcases find_slot_cases cur parents h255 with ⟨k, hk⟩ | hk
      · rw [hk]
        constructor
        · intro h
          exact absurd h (by simp)
        · intro hall
          have := spec2.mpr hall
          rw [hk] at this
          exact absurd this (by simp)
      · rw [hk]
        exact ⟨fun _ => spec2.mp hk, fun _ => rfl⟩
  · intro slot cur' max' h
    rw [hdv] at h
    by_cases hfunc : pyIn "func__" cur.name = true
    · rw [if_pos hfunc] at h
      simp only [Except.ok.injEq, Prod.mk.injEq] at h
      obtain ⟨h1, h2, h3⟩ := h
      have hfree : FreeSlot (cur :: parents) slot := by
        intro kv hkv
        have := hbound kv hkv
        omega
      obtain ⟨hd, hb⟩ := declare_preserves_distinct cur parents name ty slot maxSlot
        max' hWF hfresh hdist hbound hfree (by rw [← h3, h1])
      refine ⟨?_, by rw [← h3, h1], ?_, ?_⟩
      · rw [← h2, ← h1]
      · rw [← h1] at hd
        rw [h2] at hd
        exact hd
      · rw [← h1] at hb
        rw [h2] at hb
        exact hb
    · rw [if_neg hfunc] at h
      cases hfs : find_slot cur parents with
      | error e =>
        rw [hfs] at h
        exact absurd h (by simp)
      | ok k =>
        rw [hfs] at h
        simp only [Except.ok.injEq, Prod.mk.injEq] at h
        obtain ⟨h1, h2, h3⟩ := h
        have hcharK := (spec1 k).mp hfs
        have hfree : FreeSlot (cur :: parents) slot := by
          rw [← h1]
          exact hcharK.2.2.1
        obtain ⟨hd, hb⟩ := declare_preserves_distinct cur parents name ty slot maxSlot
          max' hWF hfresh hdist hbound hfree (by rw [← h3, h1])
        refine ⟨?_, by rw [← h3, h1], ?_, ?_⟩
        · rw [← h2, ← h1]
        · rw [← h1] at hd
          rw [h2] at hd
          exact hd
        · rw [← h1] at hb
          rw [h2] at hb
          exact hb

/-- Witness for C5: a concrete declaration in a subroutine-local scope
with one previously allocated slot lands on max_slot + 1. -/
theorem declare_var_allocation_policy_witness :
    pyIn "func__" "func__main" = true ∧
    declare_var 0 ⟨"func__main", (0, 200), []⟩
        [⟨"", (0, 200), [("a", (0, StackType.int))]⟩] "x" StackType.int =
      Except.ok (1, ⟨"func__main", (0, 200), [("x", (1, StackType.int))]⟩, 1) := by
  refine ⟨by decide, ?_⟩
  have h := (declare_var_allocation_policy ⟨"func__main", (0, 200), []⟩
    [⟨"", (0, 200), [("a", (0, StackType.int))]⟩] "x" StackType.int 0
    (by decide) (by decide) (by decide) (by decide) (by decide) (by decide)).1
    (by decide)
  exact h.1

/-! ### C3: InnerTxn.visit field ordering

A field-setter line inside an inner_txn: block carries a field name, an
optional array index and the teal() code of its value expression.  The
visit loop emits unindexed fields immediately (in source order) and
buffers indexed fields into a defaultdict(list) keyed by field name
(insertion order preserved), checking that each index equals the current
buffer length; the buffered groups are emitted after the loop.  All
writes happen at one indentation level, so the uniform indent prefix is
left out of this model. -/

structure InnerTxnFieldSetter where
  field_name : String
  index : Option Nat
  exprTeal : List String
deriving DecidableEq, Repr

/-- Reading array_fields[name] of the defaultdict(list). -/
def afGet (af : List (String × List InnerTxnFieldSetter)) (k : String) :
    List InnerTxnFieldSetter := (dget af k).getD []

/-- array_fields[name].append(node). -/
def afAppend (af : List (String × List InnerTxnFieldSetter)) (k : String)
    (v : InnerTxnFieldSetter) : List (String × List InnerTxnFieldSetter) :=
  dset af k (afGet af k ++ [v])

/-- The two writes emitting one field setter: its expression code then
the itxn_field opcode. -/
def setterEmit (n : InnerTxnFieldSetter) : List String :=
  n.exprTeal ++ ["itxn_field " ++ n.field_name]

/-- The loop of InnerTxn.visit over self.nodes, with the defaultdict and
the output lines so far as accumulators. -/
def innerTxnLoop : List InnerTxnFieldSetter →
    List (String × List InnerTxnFieldSetter) → List String →
    Except String (List (String × List InnerTxnFieldSetter) × List String)
  | [], af, out => Except.ok (af, out)
  | node :: rest, af, out =>
    match node.index with
    | some index =>
      if (afGet af node.field_name).length = index then
        innerTxnLoop rest (afAppend af node.field_name node) out
      else
        Except.error "Inccorrect field array index"
    | Option.none =>
      innerTxnLoop rest af (out ++ setterEmit node)

/-- InnerTxn.visit: the "// line" comment, the loop, then the buffered
groups flattened in buffer (first-appearance) order. -/
def innerTxn_visit (line : String) (nodes : List InnerTxnFieldSetter) :
    Except String (List String) :=
  match innerTxnLoop nodes [] ["// " ++ line] with
  | Except.ok (af, out) =>
      Except.ok (out ++ af.flatMap (fun g => g.2.flatMap setterEmit))
  | Except.error e => Except.error e

/-- Spec side: the unindexed fields in source order, each emitted. -/
def scalarEmits (nodes : List InnerTxnFieldSetter) : List String :=
  (nodes.filter (fun n => n.index.isNone)).flatMap setterEmit

/-- Spec side: array field names in order of first appearance. -/
def arrayNames (nodes : List InnerTxnFieldSetter) : List String :=
  (nodes.filter (fun n => n.index.isSome)).foldl
    (fun acc n => if n.field_name ∈ acc then acc else acc ++ [n.field_name]) []

/-- Spec side: the indexed setters carrying the given field name, in
source order. -/
def arrayGroup (nodes : List InnerTxnFieldSetter) (name : String) :
    List InnerTxnFieldSetter :=
  nodes.filter (fun n => n.field_name == name && n.index.isSome)

/-- Spec side: the indexed fields grouped by field name (first-appearance
order), each group in source order. -/
def groupedEmits (nodes : List InnerTxnFieldSetter) : List String :=
  (arrayNames nodes).flatMap (fun name => (arrayGroup nodes name).flatMap setterEmit)

/-- Spec side: for every array field name, the supplied indices are
exactly 0, 1, 2, ... in source order. -/
def ContiguousIndices (nodes : List InnerTxnFieldSetter) : Prop :=
  ∀ name ∈ arrayNames nodes,
    (arrayGroup nodes name).filterMap (fun n => n.index) =
      List.range (arrayGroup nodes name).length

/-- C2 counterexample: a ParseError raised during the generation pass is
not caught by the driver's except CompileError, so the run neither
returns artifacts nor exits printing the message — the exception escapes
compile_program uncaught.  Such a ParseError is reachable at generation
time: InnerTxn.visit (an overridden visit, bypassing the CompileError
wrapper of Node.visit) raises one for an out-of-order field array
index, as the first conjunct evaluates. -/
theorem generation_parse_error_escapes_driver :
    innerTxn_visit "inner_txn:"
      [{ field_name := "AppArgs", index := some 1,
         exprTeal := ["pushint 7"] }] =
      Except.error "Inccorrect field array index" ∧
    (∀ (ln : Nat) (msg : String)
      (m : List String → List String × List (Nat × Nat))
      (cm : List (Nat × Nat) → List (Nat × Nat) → List (Nat × Nat)),
      compile_program ln (Except.ok ())
          (Except.error (PyExc.parseError msg)) m cm =
        PyOutcome.raises (PyExc.parseError msg) [] ∧
      (∀ a : Artifacts, compile_program ln (Except.ok ())
          (Except.error (PyExc.parseError msg)) m cm ≠
        PyOutcome.returns a) ∧
      (∀ (code : Nat) (printed : String), compile_program ln (Except.ok ())
          (Except.error (PyExc.parseError msg)) m cm ≠
        PyOutcome.exits code printed)) := by
  refine ⟨rfl, fun ln msg m cm => ⟨rfl, fun a h => ?_, fun code printed h => ?_⟩⟩
  · exact PyOutcome.noConfusion h
  · exact PyOutcome.noConfusion h

instance (nodes : List InnerTxnFieldSetter) : Decidable (ContiguousIndices nodes) := by
  unfold ContiguousIndices
  infer_instance

/-- Contiguity relative to a partially filled buffer: each group must
continue counting from the buffered length. -/
def RelCont (af : List (String × List InnerTxnFieldSetter))
    (nodes : List InnerTxnFieldSetter) : Prop :=
  ∀ name : String,
    (arrayGroup nodes name).filterMap (fun n => n.index) =
      List.range' (afGet af name).length (arrayGroup nodes name).length

/-- The buffer contents after processing the nodes. -/
def finalAf (af : List (String × List InnerTxnFieldSetter))
    (nodes : List InnerTxnFieldSetter) : List (String × List InnerTxnFieldSetter) :=
  nodes.foldl (fun af n =>
    match n.index with
    | some _ => afAppend af n.field_name n
    | Option.none => af) af

theorem afGet_afAppend (af : List (String × List InnerTxnFieldSetter))
    (k k' : String) (v : InnerTxnFieldSetter) :
    afGet (afAppend af k v) k' = if k' = k then afGet af k ++ [v] else afGet af k' := by
  unfold afGet afAppend
  rw [dget_dset]
  by_cases h : k' = k
  · rw [if_pos h, if_pos h]
    rfl
  · rw [if_neg h, if_neg h]

theorem arrayGroup_cons_scalar (n : InnerTxnFieldSetter) (rest : List InnerTxnFieldSetter)
    (name : String) (h : n.index = Option.none) :
    arrayGroup (n :: rest) name = arrayGroup rest name := by
  unfold arrayGroup
  rw [List.filter_cons]
  simp [h]

theorem arrayGroup_cons_indexed (n : InnerTxnFieldSetter) (rest : List InnerTxnFieldSetter)
    (name : String) (i : Nat) (h : n.index = some i) :
    arrayGroup (n :: rest) name =
      if n.field_name = name then n :: arrayGroup rest name else arrayGroup rest name := by
  unfold arrayGroup
  rw [List.filter_cons]
  by_cases hf : n.field_name = name
  · simp [hf, h]
  · simp [hf, h]

theorem scalarEmits_cons_scalar (n : InnerTxnFieldSetter) (rest : List InnerTxnFieldSetter)
    (h : n.index = Option.none) :
    scalarEmits (n :: rest) = setterEmit n ++ scalarEmits rest := by
  unfold scalarEmits
  rw [List.filter_cons]
  simp [h]

theorem scalarEmits_cons_indexed (n : InnerTxnFieldSetter) (rest : List InnerTxnFieldSetter)
    (i : Nat) (h : n.index = some i) : scalarEmits (n :: rest) = scalarEmits rest := by
  unfold scalarEmits
  rw [List.filter_cons]
  simp [h]

theorem RelCont_cons_scalar (n : InnerTxnFieldSetter) (rest : List InnerTxnFieldSetter)
    (af : List (String × List InnerTxnFieldSetter)) (h : n.index = Option.none) :
    RelCont af (n :: rest) ↔ RelCont af rest := by
  unfold RelCont
  refine forall_congr' (fun name => ?_)
  rw [arrayGroup_cons_scalar n rest name h]

theorem RelCont_cons_indexed (n : InnerTxnFieldSetter) (rest : List InnerTxnFieldSetter)
    (af : List (String × List InnerTxnFieldSetter)) (i : Nat) (h : n.index = some i) :
    RelCont af (n :: rest) ↔
      ((afGet af n.field_name).length = i ∧ RelCont (afAppend af n.field_name n) rest) := by
  unfold RelCont
  constructor
  · intro hr
    have hfn := hr n.field_name
    rw [arrayGroup_cons_indexed n rest _ i h, if_pos rfl] at hfn
    simp only [List.filterMap_cons, h, List.length_cons] at hfn
    rw [List.range'_succ] at hfn
    injection hfn with h1 h2
    refine ⟨h1.symm, fun name => ?_⟩
    by_cases hname : name = n.field_name
    · subst hname
      rw [afGet_afAppend, if_pos rfl, List.length_append]
      simpa using h2
    · have := hr name
      rw [arrayGroup_cons_indexed n rest _ i h,
        if_neg (fun hh => hname hh.symm)] at this
      rw [afGet_afAppend, if_neg hname]
      exact this
  · rintro ⟨hlen, hr⟩ name
    by_cases hname : name = n.field_name
    · subst hname
      rw [arrayGroup_cons_indexed n rest _ i h, if_pos rfl]
      simp only [List.filterMap_cons, h, List.length_cons]
      rw [List.range'_succ]
      have htl := hr n.field_name
      rw [afGet_afAppend, if_pos rfl, List.length_append] at htl
      rw [hlen]
      simp only [List.length_cons, List.length_nil] at htl
      rw [hlen] at htl
      rw [htl]
    · rw [arrayGroup_cons_indexed n rest _ i h, if_neg (fun hh => hname hh.symm)]
      have := hr name
      rw [afGet_afAppend, if_neg hname] at this
      exact this

theorem finalAf_cons_indexed (af : List (String × List InnerTxnFieldSetter))
    (n : InnerTxnFieldSetter) (rest : List InnerTxnFieldSetter) (i : Nat)
    (h : n.index = some i) :
    finalAf af (n :: rest) = finalAf (afAppend af n.field_name n) rest := by
  unfold finalAf
  simp [h]

theorem finalAf_cons_scalar (af : List (String × List InnerTxnFieldSetter))
    (n : InnerTxnFieldSetter) (rest : List InnerTxnFieldSetter)
    (h : n.index = Option.none) : finalAf af (n :: rest) = finalAf af rest := by
  unfold finalAf
  simp [h]

theorem innerTxnLoop_spec (nodes : List InnerTxnFieldSetter) :
    ∀ af out af' out',
      innerTxnLoop nodes af out = Except.ok (af', out') ↔
        (RelCont af nodes ∧ af' = finalAf af nodes ∧
          out' = out ++ scalarEmits nodes) := by
  induction nodes with
  | nil =>
    intro af out af' out'
    simp only [innerTxnLoop, Except.ok.injEq, Prod.mk.injEq]
    constructor
    · rintro ⟨h1, h2⟩
      refine ⟨fun name => by simp [arrayGroup], h1.symm, ?_⟩
      simp [scalarEmits, h2.symm]
    · rintro ⟨-, h2, h3⟩
      refine ⟨h2.symm, ?_⟩
      simp [scalarEmits] at h3
      exact h3.symm
  | cons n rest ih =>
    intro af out af' out'
    cases hidx : n.index with
    | some i =>
      simp only [innerTxnLoop, hidx]
      by_cases hlen : (afGet af n.field_name).length = i
      · rw [if_pos hlen, ih]
        rw [RelCont_cons_indexed n rest af i hidx,
          finalAf_cons_indexed af n rest i hidx,
          scalarEmits_cons_indexed n rest i hidx]
        constructor
        · rintro ⟨h1, h2, h3⟩
          exact ⟨⟨hlen, h1⟩, h2, h3⟩
        · rintro ⟨⟨-, h1⟩, h2, h3⟩
          exact ⟨h1, h2, h3⟩
      · rw [if_neg hlen]
        constructor
        · intro h
          exact absurd h (by simp)
        · rintro ⟨hrc, -, -⟩
          exact absurd ((RelCont_cons_indexed n rest af i hidx).mp hrc).1 hlen
    | none =>
      simp only [innerTxnLoop, hidx]
      rw [ih, RelCont_cons_scalar n rest af hidx,
        scalarEmits_cons_scalar n rest hidx,
        finalAf_cons_scalar af n rest hidx]
      constructor
      · rintro ⟨h1, h2, h3⟩
        exact ⟨h1, h2, by rw [h3, List.append_assoc]⟩
      · rintro ⟨h1, h2, h3⟩
        exact ⟨h1, h2, by rw [h3, List.append_assoc]⟩

theorem innerTxnLoop_cases (nodes : List InnerTxnFieldSetter) :
    ∀ af out, (∃ r, innerTxnLoop nodes af out = Except.ok r) ∨
      innerTxnLoop nodes af out = Except.error "Inccorrect field array index" := by
  induction nodes with
  | nil => exact fun af out => Or.inl ⟨(af, out), rfl⟩
  | cons n rest ih =>
    intro af out
    cases hidx : n.index with
    | some i =>
      simp only [innerTxnLoop, hidx]
      by_cases hlen : (afGet af n.field_name).length = i
      · rw [if_pos hlen]
        exact ih _ _
      · rw [if_neg hlen]
        exact Or.inr rfl
    | none =>
      simp only [innerTxnLoop, hidx]
      exact ih _ _

/-- Spec side: the buffer as the groups of the processed nodes, keyed in
first-appearance order. -/
def specGroups (nodes : List InnerTxnFieldSetter) :
    List (String × List InnerTxnFieldSetter) :=
  (arrayNames nodes).map (fun name => (name, arrayGroup nodes name))

theorem mem_foldl_names (l : List InnerTxnFieldSetter) :
    ∀ (acc : List String) (x : String),
      (x ∈ l.foldl (fun acc n =>
        if n.field_name ∈ acc then acc else acc ++ [n.field_name]) acc ↔
      x ∈ acc ∨ x ∈ l.map (fun n => n.field_name)) := by
  induction l with
  | nil => simp
  | cons n rest ih =>
    intro acc x
    simp only [List.foldl_cons, List.map_cons, List.mem_cons]
    by_cases hmem : n.field_name ∈ acc
    · rw [if_pos hmem, ih]
      constructor
      · rintro (h | h)
        · exact Or.inl h
        · exact Or.inr (Or.inr h)
      · rintro (h | h | h)
        · exact Or.inl h
        · exact Or.inl (h ▸ hmem)
        · exact Or.inr h
    · rw [if_neg hmem, ih]
      simp only [List.mem_append, List.mem_singleton]
      tauto

theorem mem_arrayNames (nodes : List InnerTxnFieldSetter) (x : String) :
    x ∈ arrayNames nodes ↔
      ∃ n ∈ nodes, n.index.isSome ∧ n.field_name = x := by
  unfold arrayNames
  rw [mem_foldl_names]
  simp only [List.mem_map, List.mem_filter, List.not_mem_nil, false_or]
  constructor
  · rintro ⟨n, ⟨hn, hs⟩, hf⟩
    exact ⟨n, hn, by simpa using hs, hf⟩
  · rintro ⟨n, hn, hs, hf⟩
    exact ⟨n, ⟨hn, by simpa using hs⟩, hf⟩

theorem arrayNames_nodup (nodes : List InnerTxnFieldSetter) :
    (arrayNames nodes).Nodup := by
  unfold arrayNames
  generalize nodes.filter (fun n => n.index.isSome) = l
  have : ∀ acc : List String, acc.Nodup →
      (l.foldl (fun acc n =>
        if n.field_name ∈ acc then acc else acc ++ [n.field_name]) acc).Nodup := by
    induction l with
    | nil => exact fun acc h => h
    | cons n rest ih =>
      intro acc h
      simp only [List.foldl_cons]
      by_cases hmem : n.field_name ∈ acc
      · rw [if_pos hmem]
        exact ih acc h
      · rw [if_neg hmem]
        refine ih _ ?_
        simp [List.nodup_append, h, hmem]
  exact this [] (by simp)

theorem arrayGroup_eq_nil_of_not_mem (nodes : List InnerTxnFieldSetter)
    (name : String) (h : name ∉ arrayNames nodes) : arrayGroup nodes name = [] := by
  unfold arrayGroup
  rw [List.filter_eq_nil_iff]
  intro n hn hc
  rw [Bool.and_eq_true] at hc
  obtain ⟨hf, hs⟩ := hc
  exact h ((mem_arrayNames nodes name).mpr ⟨n, hn, hs, by simpa using hf⟩)

theorem arrayNames_snoc_scalar (p : List InnerTxnFieldSetter)
    (n : InnerTxnFieldSetter) (h : n.index = Option.none) :
    arrayNames (p ++ [n]) = arrayNames p := by
  unfold arrayNames
  rw [List.filter_append]
  simp [h]

theorem arrayNames_snoc_indexed (p : List InnerTxnFieldSetter)
    (n : InnerTxnFieldSetter) (i : Nat) (h : n.index = some i) :
    arrayNames (p ++ [n]) =
      if n.field_name ∈ arrayNames p then arrayNames p
      else arrayNames p ++ [n.field_name] := by
  unfold arrayNames
  rw [List.filter_append, List.foldl_append]
  simp [List.filter, h]

theorem arrayGroup_snoc (p : List InnerTxnFieldSetter) (n : InnerTxnFieldSetter)
    (name : String) :
    arrayGroup (p ++ [n]) name =
      arrayGroup p name ++
        (if n.field_name == name && n.index.isSome then [n] else []) := by
  unfold arrayGroup
  rw [List.filter_append, List.filter_singleton, Bool.cond_eq_ite]

theorem specGroups_snoc_scalar (p : List InnerTxnFieldSetter)
    (n : InnerTxnFieldSetter) (h : n.index = Option.none) :
    specGroups (p ++ [n]) = specGroups p := by
  unfold specGroups
  rw [arrayNames_snoc_scalar p n h]
  refine List.map_congr_left (fun name _ => ?_)
  rw [arrayGroup_snoc]
  simp [h]

theorem dset_fresh_key {α : Type} (m : List (String × α)) (k : String) (v : α)
    (h : k ∉ m.map Prod.fst) : dset m k v = m ++ [(k, v)] := by
  induction m with
  | nil => rfl
  | cons kv rest ih =>
    simp only [List.map_cons, List.mem_cons] at h
    push_neg at h
    simp only [dset]
    rw [if_neg (fun hk => h.1 hk.symm), ih h.2]
    rfl

theorem keys_specGroups (nodes : List InnerTxnFieldSetter) :
    (specGroups nodes).map Prod.fst = arrayNames nodes := by
  unfold specGroups
  rw [List.map_map]
  exact List.map_id _

theorem dget_specGroups (nodes : List InnerTxnFieldSetter) (name : String)
    (h : name ∈ arrayNames nodes) :
    dget (specGroups nodes) name = some (arrayGroup nodes name) := by
  have hnd : ((specGroups nodes).map Prod.fst).Nodup := by
    rw [keys_specGroups]
    exact arrayNames_nodup nodes
  rw [dget_eq_some_iff _ _ _ hnd]
  unfold specGroups
  exact List.mem_map_of_mem _ h

theorem dget_specGroups_none (nodes : List InnerTxnFieldSetter) (name : String)
    (h : name ∉ arrayNames nodes) :
    dget (specGroups nodes) name = Option.none := by
  rw [dget_eq_none_iff, keys_specGroups]
  exact h

theorem dset_map_graph (names : List String)
    (g : String → List InnerTxnFieldSetter) (k : String)
    (v : List InnerTxnFieldSetter) (hnd : names.Nodup) (hmem : k ∈ names) :
    dset (names.map (fun nm => (nm, g nm))) k v =
      names.map (fun nm => (nm, if nm = k then v else g nm)) := by
  induction names with
  | nil => cases hmem
  | cons m rest ih =>
    simp only [List.nodup_cons] at hnd
    simp only [List.map_cons, dset]
    by_cases hmk : m = k
    · rw [if_pos hmk, if_pos hmk]
      congr 1
      refine (List.map_congr_left (fun nm hnm => ?_)).symm
      have hne : ¬(nm = k) := fun he => hnd.1 (by rw [hmk, ← he]; exact hnm)
      rw [if_neg hne]
    · rw [if_neg hmk, if_neg hmk]
      congr 1
      exact ih hnd.2 (by rcases List.mem_cons.mp hmem with h | h
                         · exact absurd h.symm hmk
                         · exact h)

theorem specGroups_snoc_indexed (p : List InnerTxnFieldSetter)
    (n : InnerTxnFieldSetter) (i : Nat) (h : n.index = some i) :
    afAppend (specGroups p) n.field_name n = specGroups (p ++ [n]) := by
  unfold afAppend afGet
  by_cases hmem : n.field_name ∈ arrayNames p
  · rw [dget_specGroups p _ hmem]
    simp only [Option.getD_some]
    have hnames : arrayNames (p ++ [n]) = arrayNames p := by
      rw [arrayNames_snoc_indexed p n i h, if_pos hmem]
    rw [show specGroups p = (arrayNames p).map (fun nm => (nm, arrayGroup p nm)) from rfl]
    rw [dset_map_graph (arrayNames p) (arrayGroup p) n.field_name _
      (arrayNames_nodup p) hmem]
    unfold specGroups
    rw [hnames]
    refine List.map_congr_left (fun nm hnm => ?_)
    rw [arrayGroup_snoc]
    by_cases he : nm = n.field_name
    · rw [if_pos he]
      subst he
      simp [h]
    · rw [if_neg he]
      have hb : (n.field_name == nm) = false := by
        simp only [beq_eq_false_iff_ne, ne_eq]
        exact fun hh => he hh.symm
      simp [hb]
  · rw [dget_specGroups_none p _ hmem]
    simp only [Option.getD_none, List.nil_append]
    rw [dset_fresh_key _ _ _ (by rw [keys_specGroups]; exact hmem)]
    unfold specGroups
    rw [arrayNames_snoc_indexed p n i h, if_neg hmem, List.map_append]
    congr 1
    · refine List.map_congr_left (fun nm hnm => ?_)
      rw [arrayGroup_snoc]
      have hb : (n.field_name == nm) = false := by
        simp only [beq_eq_false_iff_ne, ne_eq]
        exact fun hh => hmem (hh ▸ hnm)
      simp [hb]
    · simp only [List.map_cons, List.map_nil]
      have hg : arrayGroup (p ++ [n]) n.field_name = [n] := by
        rw [arrayGroup_snoc, arrayGroup_eq_nil_of_not_mem p _ hmem]
        simp [h]
      rw [hg]

theorem arrayNames_middle_scalar (p rest : List InnerTxnFieldSetter)
    (n : InnerTxnFieldSetter) (h : n.index = Option.none) :
    arrayNames (p ++ n :: rest) = arrayNames (p ++ rest) := by
  unfold arrayNames
  rw [List.filter_append, List.filter_cons, List.filter_append]
  simp [h]

theorem arrayGroup_middle_scalar (p rest : List InnerTxnFieldSetter)
    (n : InnerTxnFieldSetter) (name : String) (h : n.index = Option.none) :
    arrayGroup (p ++ n :: rest) name = arrayGroup (p ++ rest) name := by
  unfold arrayGroup
  rw [List.filter_append, List.filter_cons, List.filter_append]
  simp [h]

theorem specGroups_middle_scalar (p rest : List InnerTxnFieldSetter)
    (n : InnerTxnFieldSetter) (h : n.index = Option.none) :
    specGroups (p ++ n :: rest) = specGroups (p ++ rest) := by
  unfold specGroups
  rw [arrayNames_middle_scalar p rest n h]
  refine List.map_congr_left (fun nm hnm => ?_)
  rw [arrayGroup_middle_scalar p rest n nm h]

theorem finalAf_specGroups (nodes : List InnerTxnFieldSetter) :
    ∀ p, finalAf (specGroups p) nodes = specGroups (p ++ nodes) := by
  induction nodes with
  | nil =>
    intro p
    simp [finalAf]
  | cons n rest ih =>
    intro p
    cases hidx : n.index with
    | some i =>
      rw [finalAf_cons_indexed _ n rest i hidx, specGroups_snoc_indexed p n i hidx,
        ih (p ++ [n])]
      simp
    | none =>
      rw [finalAf_cons_scalar _ n rest hidx, ih p,
        specGroups_middle_scalar p rest n hidx]

theorem finalAf_nil (nodes : List InnerTxnFieldSetter) :
    finalAf [] nodes = specGroups nodes := by
  have := finalAf_specGroups nodes []
  simpa using this

theorem flatten_specGroups (nodes : List InnerTxnFieldSetter) :
    (specGroups nodes).flatMap (fun g => g.2.flatMap setterEmit) =
      groupedEmits nodes := by
  unfold specGroups groupedEmits
  rw [List.flatMap_map]

theorem relCont_nil_iff (nodes : List InnerTxnFieldSetter) :
    RelCont [] nodes ↔ ContiguousIndices nodes := by
  unfold RelCont ContiguousIndices
  constructor
  · intro hr name _
    have := hr name
    simpa [afGet, dget, List.range_eq_range'] using this
  · intro hc name
    by_cases hmem : name ∈ arrayNames nodes
    · have := hc name hmem
      simpa [afGet, dget, List.range_eq_range'] using this
    · rw [arrayGroup_eq_nil_of_not_mem nodes name hmem]
      simp

/-- C3.  InnerTxn.visit emits fields without an index first, in source
order; indexed fields are buffered per field name and must arrive with
contiguous indices starting at 0 (an out-of-order or gapped index raises
the compile failure), and are then emitted after all scalar fields,
grouped by field name (in first-appearance order) in ascending index
order — which, given contiguity, is their source order within the
group. -/
theorem innerTxn_visit_field_ordering (line : String)
    (nodes : List InnerTxnFieldSetter) (out : List String) :
    (innerTxn_visit line nodes = Except.ok out ↔
      (ContiguousIndices nodes ∧
        out = ["// " ++ line] ++ scalarEmits nodes ++ groupedEmits nodes)) ∧
    (¬ContiguousIndices nodes →
      innerTxn_visit line nodes = Except.error "Inccorrect field array index") := by
  unfold innerTxn_visit
  rcases innerTxnLoop_cases nodes [] ["// " ++ line] with ⟨⟨af, o⟩, hok⟩ | herr
  · obtain ⟨hrc, haf, ho⟩ := (innerTxnLoop_spec nodes [] ["// " ++ line] af o).mp hok
    rw [hok]
    have hcont : ContiguousIndices nodes := (relCont_nil_iff nodes).mp hrc
    have hflat : af.flatMap (fun g => g.2.flatMap setterEmit) = groupedEmits nodes := by
      rw [haf, finalAf_nil, flatten_specGroups]
    constructor
    · simp only [Except.ok.injEq]
      constructor
      · intro hh
        refine ⟨hcont, ?_⟩
        rw [← hh, ho, hflat, List.append_assoc]
      · rintro ⟨-, hh⟩
        rw [ho, hflat, hh, List.append_assoc]
    · intro hnc
      exact absurd hcont hnc
  · rw [herr]
    constructor
    · constructor
      · intro hh
        exact absurd hh (by simp)
      · rintro ⟨hcont, -⟩
        have hok2 : innerTxnLoop nodes [] ["// " ++ line] =
            Except.ok (finalAf [] nodes, ["// " ++ line] ++ scalarEmits nodes) :=
          (innerTxnLoop_spec nodes [] ["// " ++ line] _ _).mpr
            ⟨(relCont_nil_iff nodes).mpr hcont, rfl, rfl⟩
        rw [herr] at hok2
        exact absurd hok2 (by simp)
    · intro _
      rfl

/-- Witness for C3: two scalar fields followed by an array field at
indices 0 then 1 compile to the scalars (in order) followed by the two
array entries; supplying the indices as 1 then 0 fails. -/
theorem innerTxn_visit_field_ordering_witness :
    innerTxn_visit "inner_txn:"
        [⟨"TypeEnum", Option.none, ["pushint 6"]⟩,
         ⟨"Fee", Option.none, ["pushint 0"]⟩,
         ⟨"ApplicationArgs", some 0, ["pushbytes 0x61"]⟩,
         ⟨"ApplicationArgs", some 1, ["pushbytes 0x62"]⟩] =
      Except.ok ["// inner_txn:",
        "pushint 6", "itxn_field TypeEnum",
        "pushint 0", "itxn_field Fee",
        "pushbytes 0x61", "itxn_field ApplicationArgs",
        "pushbytes 0x62", "itxn_field ApplicationArgs"] ∧
    innerTxn_visit "inner_txn:"
        [⟨"ApplicationArgs", some 1, ["pushbytes 0x61"]⟩,
         ⟨"ApplicationArgs", some 0, ["pushbytes 0x62"]⟩] =
      Except.error "Inccorrect field array index" := by
  constructor
  · exact (innerTxn_visit_field_ordering "inner_txn:" _ _).1.mpr ⟨by decide, by decide⟩
  · exact (innerTxn_visit_field_ordering "inner_txn:"
      [⟨"ApplicationArgs", some 1, ["pushbytes 0x61"]⟩,
       ⟨"ApplicationArgs", some 0, ["pushbytes 0x62"]⟩] []).2 (by decide)

/-! ### C10: InnerTxn.consume skips comment lines -/

/-- Python str.isspace characters handled by str.strip. -/
def isSpaceChar (c : Char) : Bool :=
  c == ' ' || c == '\t' || c == '\n' || c == '\r' || c == '\x0b' || c == '\x0c'

/-- Python line.strip(): drop leading and trailing whitespace. -/
def pyStrip (s : String) : String :=
  String.mk (((s.data.dropWhile isSpaceChar).reverse.dropWhile isSpaceChar).reverse)

/-- Python s.startswith(pat). -/
def pyStartsWith (s pat : String) : Bool := hasPre pat.data s.data

/-- The loop of InnerTxn.consume over the source lines following the
inner_txn: header.  peek/consume_line strip the line; "end" is consumed
and terminates the loop; a line whose stripped form starts with "#" is
consumed and discarded; any other line is consumed and becomes an
InnerTxnFieldSetter child built from the stripped line.  Returns the
child lines in order; Option.none models running out of input before
"end" (the Python code would crash calling None.startswith). -/
def innerTxnChildLines : List String → Option (List String)
  | [] => Option.none
  | l :: rest =>
    let t := pyStrip l
    if t = "end" then some []
    else if pyStartsWith t "#" then innerTxnChildLines rest
    else (innerTxnChildLines rest).map (fun cs => t :: cs)

/-- C10.  A line beginning with "#" inside an inner_txn: block is
consumed and discarded: the child list is the same as if the line were
absent, hence (for any way of parsing child lines into field setters) it
creates no field-setter child and contributes nothing to the emitted
assembly of InnerTxn.visit. -/
theorem innerTxn_consume_skips_comment_lines (pre post : List String) (l : String)
    (h : pyStartsWith (pyStrip l) "#" = true) :
    innerTxnChildLines (pre ++ l :: post) = innerTxnChildLines (pre ++ post) ∧
    ∀ (parseSetter : String → InnerTxnFieldSetter) (line : String),
      (innerTxnChildLines (pre ++ l :: post)).map
          (fun cs => innerTxn_visit line (cs.map parseSetter)) =
        (innerTxnChildLines (pre ++ post)).map
          (fun cs => innerTxn_visit line (cs.map parseSetter)) := by
  have hmain : innerTxnChildLines (pre ++ l :: post) =
      innerTxnChildLines (pre ++ post) := by
    induction pre with
    | nil =>
      have hne : ¬(pyStrip l = "end") := by
        intro he
        rw [he] at h
        exact absurd h (by decide)
      simp only [List.nil_append, innerTxnChildLines]
      rw [if_neg hne, if_pos h]
    | cons p rest ih =>
      simp only [List.cons_append, innerTxnChildLines]
      by_cases h1 : pyStrip p = "end"
      · rw [if_pos h1, if_pos h1]
      · rw [if_neg h1, if_neg h1]
        by_cases h2 : pyStartsWith (pyStrip p) "#"
        · rw [if_pos h2, if_pos h2]
          exact ih
        · rw [if_neg h2, if_neg h2]
          exact congrArg (Option.map _) ih
  exact ⟨hmain, fun parseSetter line => by rw [hmain]⟩

/-- Witness for C10: a comment line between a field line and "end" is
dropped; the sole child is the field line. -/
theorem innerTxn_consume_skips_comment_lines_witness :
    innerTxnChildLines ["Fee: 0", "# a comment", "end"] =
      innerTxnChildLines ["Fee: 0", "end"] ∧
    innerTxnChildLines ["Fee: 0", "end"] = some ["Fee: 0"] :=
  ⟨(innerTxn_consume_skips_comment_lines ["Fee: 0"] ["end"] "# a comment"
      (by decide)).1,
    by decide⟩

/-! ### Decimal rendering facts

Python f-strings render the label counter in decimal; the embedding uses
Nat.repr.  Label uniqueness needs injectivity of the rendering, proved
here via a decoder for the digit lists produced by Nat.toDigitsCore. -/

def digitVal (c : Char) : Nat := c.toNat - 48

def digitsValAux (a : Nat) (l : List Char) : Nat :=
  l.foldl (fun a c => a * 10 + digitVal c) a

def digitsVal (l : List Char) : Nat := digitsValAux 0 l

theorem digitsValAux_append (a : Nat) (l1 l2 : List Char) :
    digitsValAux a (l1 ++ l2) = digitsValAux (digitsValAux a l1) l2 :=
  List.foldl_append _ _ _ _

theorem digitVal_digitChar (n : Nat) (h : n < 10) :
    digitVal (Nat.digitChar n) = n := by
  interval_cases n <;> decide

theorem digitChar_isDigit (n : Nat) (h : n < 10) :
    (Nat.digitChar n).isDigit = true := by
  interval_cases n <;> decide

theorem toDigitsCore_acc (fuel n : Nat) (ds : List Char) :
    Nat.toDigitsCore 10 fuel n ds = Nat.toDigitsCore 10 fuel n [] ++ ds := by
  induction fuel generalizing n ds with
  | zero => simp [Nat.toDigitsCore]
  | succ fuel ih =>
    simp only [Nat.toDigitsCore]
    by_cases h : n / 10 = 0
    · rw [if_pos h, if_pos h]
      rfl
    · rw [if_neg h, if_neg h, ih (n / 10) [Nat.digitChar (n % 10)],
        ih (n / 10) (Nat.digitChar (n % 10) :: ds)]
      simp

theorem digitsVal_toDigitsCore (fuel : Nat) :
    ∀ n, n < 10 ^ fuel → digitsVal (Nat.toDigitsCore 10 fuel n []) = n := by
  induction fuel with
  | zero =>
    intro n h
    simp only [pow_zero, Nat.lt_one_iff] at h
    subst h
    simp [Nat.toDigitsCore, digitsVal, digitsValAux]
  | succ fuel ih =>
    intro n h
    simp only [Nat.toDigitsCore]
    by_cases h0 : n / 10 = 0
    · rw [if_pos h0]
      have hn : n < 10 := by omega
      simp only [digitsVal, digitsValAux, List.foldl_cons, List.foldl_nil]
      rw [digitVal_digitChar (n % 10) (Nat.mod_lt n (by norm_num))]
      omega
    · rw [if_neg h0, toDigitsCore_acc]
      have hdiv : n / 10 < 10 ^ fuel := by
        apply Nat.div_lt_of_lt_mul
        calc n < 10 ^ (fuel + 1) := h
        _ = 10 * 10 ^ fuel := by ring
      have hv : digitsValAux 0 (Nat.toDigitsCore 10 fuel (n / 10) []) = n / 10 :=
        ih (n / 10) hdiv
      show digitsValAux 0 _ = n
      rw [digitsValAux_append, hv]
      simp only [digitsValAux, List.foldl_cons, List.foldl_nil]
      rw [digitVal_digitChar (n % 10) (Nat.mod_lt n (by norm_num))]
      omega

theorem toDigits_val (n : Nat) : digitsVal (Nat.toDigits 10 n) = n := by
  have hlt : n < 10 ^ (n + 1) := by
    calc n < 2 ^ n := Nat.lt_two_pow n
    _ ≤ 10 ^ n := Nat.pow_le_pow_left (by norm_num) n
    _ ≤ 10 ^ (n + 1) := Nat.pow_le_pow_right (by norm_num) (Nat.le_succ n)
  exact digitsVal_toDigitsCore (n + 1) n hlt

theorem repr_injective (a b : Nat) (h : Nat.repr a = Nat.repr b) : a = b := by
  have hd : Nat.toDigits 10 a = Nat.toDigits 10 b := by
    have := congrArg String.data h
    simpa [Nat.repr, List.asString] using this
  have := congrArg digitsVal hd
  rwa [toDigits_val, toDigits_val] at this

theorem toDigitsCore_all_digits (fuel : Nat) :
    ∀ n (ds : List Char), (∀ c ∈ ds, c.isDigit = true) →
      ∀ c ∈ Nat.toDigitsCore 10 fuel n ds, c.isDigit = true := by
  induction fuel with
  | zero => exact fun n ds h => h
  | succ fuel ih =>
    intro n ds h c hc
    simp only [Nat.toDigitsCore] at hc
    by_cases h0 : n / 10 = 0
    · rw [if_pos h0] at hc
      rcases List.mem_cons.mp hc with rfl | hc
      · exact digitChar_isDigit _ (Nat.mod_lt n (by norm_num))
      · exact h c hc
    · rw [if_neg h0] at hc
      refine ih (n / 10) _ ?_ c hc
      intro c' hc'
      rcases List.mem_cons.mp hc' with rfl | hc'
      · exact digitChar_isDigit _ (Nat.mod_lt n (by norm_num))
      · exact h c' hc'

theorem repr_all_digits (n : Nat) : ∀ c ∈ (Nat.repr n).data, c.isDigit = true := by
  intro c hc
  have : (Nat.repr n).data = Nat.toDigits 10 n := rfl
  rw [this] at hc
  exact toDigitsCore_all_digits (n + 1) n [] (by simp) c hc

theorem digits_prefix_split (a : List Char) :
    ∀ (b s t : List Char), (∀ c ∈ a, c.isDigit = true) →
      (∀ c ∈ b, c.isDigit = true) →
      (∀ c, s.head? = some c → c.isDigit = false) →
      (∀ c, t.head? = some c → c.isDigit = false) →
      a ++ s = b ++ t → a = b ∧ s = t := by
  induction a with
  | nil =>
    intro b s t _ hb hs _ h
    cases b with
    | nil => simpa using h
    | cons y ys =>
      simp only [List.nil_append, List.cons_append] at h
      have hy : y.isDigit = true := hb y (List.mem_cons_self y ys)
      have : s.head? = some y := by rw [h]; rfl
      have := hs y this
      rw [hy] at this
      cases this
  | cons x xs ih =>
    intro b s t ha hb hs ht h
    cases b with
    | nil =>
      simp only [List.cons_append, List.nil_append] at h
      have hx : x.isDigit = true := ha x (List.mem_cons_self x xs)
      have : t.head? = some x := by rw [← h]; rfl
      have := ht x this
      rw [hx] at this
      cases this
    | cons y ys =>
      simp only [List.cons_append, List.cons.injEq] at h
      obtain ⟨hxy, hrest⟩ := h
      obtain ⟨h1, h2⟩ := ih ys s t
        (fun c hc => ha c (List.mem_cons_of_mem x hc))
        (fun c hc => hb c (List.mem_cons_of_mem y hc)) hs ht hrest
      exact ⟨by rw [hxy, h1], h2⟩

/-- The control-flow label minting shape: "l" + str(counter) + suffix
(suffixes "_end", "_else", "_while", "_for" all start with an
underscore, which is not a digit). -/
def ctrlLbl (i : Nat) (suffix : String) : String := "l" ++ Nat.repr i ++ suffix

theorem ctrlLbl_inj (i j : Nat) (s t : String)
    (hs : s.data.head? = some '_') (ht : t.data.head? = some '_')
    (h : ctrlLbl i s = ctrlLbl j t) : i = j ∧ s = t := by
  have hd := congrArg String.data h
  simp only [ctrlLbl, String.data_append] at hd
  have hd' : ('l' :: (Nat.repr i).data) ++ s.data =
      ('l' :: (Nat.repr j).data) ++ t.data := by
    simpa using hd
  simp only [List.cons_append, List.cons.injEq] at hd'
  obtain ⟨h1, h2⟩ := digits_prefix_split (Nat.repr i).data (Nat.repr j).data
    s.data t.data (repr_all_digits i) (repr_all_digits j)
    (fun c hc => by rw [hs] at hc; cases hc; decide)
    (fun c hc => by rw [ht] at hc; cases hc; decide)
    hd'.2
  refine ⟨repr_injective i j ?_, ?_⟩
  · cases hri : (Nat.repr i)
    cases hrj : (Nat.repr j)
    simp only [hri, hrj] at h1
    simp [h1]
  · cases hsv : s
    cases htv : t
    simp only [hsv, htv] at h2
    simp [h2]

/-! ### A compiled fragment of the language (C6, C7, C8)

To settle the whole-unit claims (label uniqueness, forward references,
redeclaration) the two-pass pipeline is embedded for the statement
fragment those claims mention: named blocks, zero-argument subroutines,
jump, if/else, const declarations, int declarations, assignment, exit,
call statements and return.  The mutable Python Scope objects are an
arena (a list indexed by scope id) threaded through both passes, exactly
as construction (pass 1) registers blocks and functions and the code
generator (pass 2) adds consts and slots.  Source line numbers are not
modelled (write is passed line number 0 and the CompileError line suffix
is omitted).  Modelled from the spec: the expression engine
(expressions.py, not under src/) resolves identifiers against the
merged scope dicts, emits pushint / callsub postfix code, and fails
with an unresolved-name error for an unknown name. -/

inductive FExpr where
  | lit (n : Nat)
  | constRef (name : String)
deriving DecidableEq, Repr

inductive FStmt where
  | blockS (name : String) (body : List FStmt)
  | funcS (name : String) (body : List FStmt)
  | jumpS (name : String)
  | ifS (condText : String) (condTeal : List String) (thenB : List FStmt)
      (elseB : Option (List FStmt))
  | constS (name : String) (ty : StackType) (val : Nat)
  | exitS (e : FExpr)
  | callS (fname : String)
  | intS (name : String) (val : Option FExpr)
  | assignS (name : String) (e : FExpr)
  | returnS
deriving Repr

structure FScope where
  name : String
  parent : Option Nat
  slot_range : Nat × Nat
  slots : List (String × Nat × StackType)
  consts : List (String × StackType × Nat)
  blocks : List (String × String)
  functionsTbl : List (String × String)
deriving Repr

def defaultFScope : FScope :=
  { name := "", parent := Option.none, slot_range := (0, 200), slots := [],
    consts := [], blocks := [], functionsTbl := [] }

/-- Scope.__init__: the qualified name prefixes the parent name when it
is nonempty. -/
def qualifiedName (parentName childName : String) : String :=
  if parentName ≠ "" then parentName ++ "__" ++ childName else childName

/-- Block.__init__ label: scope.name + ("__" if scope.name else "") + name. -/
def blockLabelOf (scopeName name : String) : String :=
  scopeName ++ (if scopeName ≠ "" then "__" else "") ++ name

/-- Func.__init__ label: scope.name + "__func__" + name (unconditional). -/
def funcLabelOf (scopeName name : String) : String :=
  scopeName ++ "__func__" ++ name

structure ParseSt where
  scopes : List FScope
  conditional_count : Nat
deriving Repr

def getScope (scopes : List FScope) (sid : Nat) : FScope :=
  scopes.getD sid defaultFScope

def setScope (scopes : List FScope) (sid : Nat) (sc : FScope) : List FScope :=
  scopes.set sid sc

/-- scope.blocks[name] = the block (its label is all that is read). -/
def registerBlock (st : ParseSt) (sid : Nat) (name label : String) : ParseSt :=
  let sc := getScope st.scopes sid
  let sc2 := { sc with blocks := dset sc.blocks name label }
  { st with scopes := setScope st.scopes sid sc2 }

/-- scope.functions[name] = the func. -/
def registerFunc (st : ParseSt) (sid : Nat) (name label : String) : ParseSt :=
  let sc := getScope st.scopes sid
  let sc2 := { sc with functionsTbl := dset sc.functionsTbl name label }
  { st with scopes := setScope st.scopes sid sc2 }

/-- Node.new_scope: create a child scope; its id is the next arena index. -/
def pushScope (st : ParseSt) (parentId : Nat) (childName : String) : Nat × ParseSt :=
  let parentName := (getScope st.scopes parentId).name
  let sc : FScope := { defaultFScope with
    name := qualifiedName parentName childName, parent := some parentId }
  (st.scopes.length, { st with scopes := st.scopes ++ [sc] })

/-- The tree after the parse pass: blocks and funcs carry their minted
label and child scope id, if statements their conditional index. -/
inductive AStmt where
  | blockA (name label : String) (sid : Nat) (body : List AStmt)
  | funcA (name label : String) (sid : Nat) (body : List AStmt)
  | jumpA (name : String)
  | ifA (condText : String) (condTeal : List String) (idx : Nat)
      (thenB : List AStmt) (elseB : Option (List AStmt))
  | constA (name : String) (ty : StackType) (val : Nat)
  | exitA (e : FExpr)
  | callA (fname : String)
  | intA (name : String) (val : Option FExpr)
  | assignA (name : String) (e : FExpr)
  | returnA
deriving Repr

mutual

/-- Pass 1 (tree construction): blocks and funcs register themselves
into the scope that is current at their position and create their child
scope before their children are parsed; if statements take the next
conditional counter value. -/
def parseStmt (sid : Nat) (s : FStmt) (st : ParseSt) : AStmt × ParseSt :=
  match s with
  | .blockS name body =>
    let label := blockLabelOf (getScope st.scopes sid).name name
    let st1 := registerBlock st sid name label
    let (csid, st2) := pushScope st1 sid name
    let (abody, st3) := parseStmts csid body st2
    (AStmt.blockA name label csid abody, st3)
  | .funcS name body =>
    let label := funcLabelOf (getScope st.scopes sid).name name
    let st1 := registerFunc st sid name label
    let (csid, st2) := pushScope st1 sid ("func__" ++ name)
    let (abody, st3) := parseStmts csid body st2
    (AStmt.funcA name label csid abody, st3)
  | .jumpS name => (AStmt.jumpA name, st)
  | .ifS ct teal thenB elseB =>
    let idx := st.conditional_count
    let st1 := { st with conditional_count := st.conditional_count + 1 }
    match elseB with
    | Option.none =>
      let (athen, st2) := parseStmts sid thenB st1
      (AStmt.ifA ct teal idx athen Option.none, st2)
    | some es =>
      let (athen, st2) := parseStmts sid thenB st1
      let (aelse, st3) := parseStmts sid es st2
      (AStmt.ifA ct teal idx athen (some aelse), st3)
  | .constS name ty v => (AStmt.constA name ty v, st)
  | .exitS e => (AStmt.exitA e, st)
  | .callS f => (AStmt.callA f, st)
  | .intS n v => (AStmt.intA n v, st)
  | .assignS n e => (AStmt.assignA n e, st)
  | .returnS => (AStmt.returnA, st)

def parseStmts (sid : Nat) (ss : List FStmt) (st : ParseSt) : List AStmt × ParseSt :=
  match ss with
  | [] => ([], st)
  | s :: rest =>
    let (a, st1) := parseStmt sid s st
    let (rest2, st2) := parseStmts sid rest st1
    (a :: rest2, st2)

end

structure VisitSt where
  cs : CompilerState
  scopes : List FScope
deriving Repr

def incLevel (st : VisitSt) : VisitSt :=
  { st with cs := { st.cs with level := st.cs.level + 1 } }

def decLevel (st : VisitSt) : VisitSt :=
  { st with cs := { st.cs with level := st.cs.level - 1 } }

def writeV (st : VisitSt) (lines : List String) : VisitSt :=
  { st with cs := write st.cs lines 0 }

/-- Node.get_scopes over the arena: the scope and its ancestors,
innermost first (the arena size bounds the parent chain). -/
def chainScopes (scopes : List FScope) : Nat → Nat → List FScope
  | 0, _ => []
  | fuel + 1, sid =>
    match scopes[sid]? with
    | Option.none => []
    | some sc =>
      match sc.parent with
      | Option.none => [sc]
      | some p => sc :: chainScopes scopes fuel p

def scopeChain (scopes : List FScope) (sid : Nat) : List FScope :=
  chainScopes scopes scopes.length sid

/-- Node.get_blocks: blocks dicts merged walking the chain innermost
first with dict update (a later, outer registration overwrites). -/
def getBlockF (scopes : List FScope) (sid : Nat) (name : String) : Option String :=
  dget ((scopeChain scopes sid).foldl (fun acc sc => dupdate acc sc.blocks) []) name

/-- The functions part of Node.get_scope, same merge. -/
def getFuncF (scopes : List FScope) (sid : Nat) (name : String) : Option String :=
  dget ((scopeChain scopes sid).foldl (fun acc sc => dupdate acc sc.functionsTbl) []) name

/-- The consts part of Node.get_scope, same merge. -/
def getConstF (scopes : List FScope) (sid : Nat) (name : String) :
    Option (StackType × Nat) :=
  dget ((scopeChain scopes sid).foldl (fun acc sc => dupdate acc sc.consts) []) name

def toScopeE (sc : FScope) : ScopeE :=
  { name := sc.name, slot_range := sc.slot_range, slots := sc.slots }

/-- Node.declare_var performed on the arena at scope sid, threading
compiler.max_slot. -/
def declareVarA (st : VisitSt) (sid : Nat) (name : String) (ty : StackType) :
    Except String (Nat × VisitSt) :=
  match scopeChain st.scopes sid with
  | [] => Except.error "no scope"
  | cur :: parents =>
    match declare_var st.cs.max_slot (toScopeE cur) (parents.map toScopeE) name ty with
    | Except.error e => Except.error e
    | Except.ok (slot, curE, max') =>
      let sc := getScope st.scopes sid
      let sc2 := { sc with slots := curE.slots }
      Except.ok (slot,
        { st with
          scopes := setScope st.scopes sid sc2,
          cs := { st.cs with max_slot := max' } })

/-- Modelled from the spec: the expression engine resolves identifiers
against the scope (constants here) and emits postfix code; an unknown
name is an unresolved-name failure. -/
def exprTealF (scopes : List FScope) (sid : Nat) : FExpr → Except String (List String)
  | .lit n => Except.ok ["pushint " ++ Nat.repr n]
  | .constRef c =>
    match getConstF scopes sid c with
    | some (_, v) => Except.ok ["pushint " ++ Nat.repr v]
    | Option.none => Except.error ("unresolved name: " ++ c)

def exprText : FExpr → String
  | .lit n => Nat.repr n
  | .constRef c => c

mutual

/-- Pass 2 (code generation): each case mirrors the corresponding
class's process / visit. -/
def visitStmt (sid : Nat) (a : AStmt) (st : VisitSt) : Except String VisitSt :=
  match a with
  | .blockA name label csid body =>
    let st1 := writeV st ["// block " ++ name]
    let st2 := writeV st1 [label ++ ":"]
    match visitStmts csid body (incLevel st2) with
    | Except.error e => Except.error e
    | Except.ok st3 => Except.ok (decLevel st3)
  | .funcA name label csid body =>
    let st1 := writeV st ["// func " ++ name ++ "():"]
    let st2 := writeV st1 [label ++ ":"]
    visitStmts csid body st2
  | .jumpA name =>
    let st1 := writeV st ["// jump " ++ name]
    match getBlockF st.scopes sid name with
    | Option.none => Except.error "NoneType object has no attribute label"
    | some label => Except.ok (writeV st1 ["b " ++ label])
  | .ifA ct teal idx thenB elseB =>
    let end_label := "l" ++ Nat.repr idx ++ "_end"
    let else_label := "l" ++ Nat.repr idx ++ "_else"
    let next_label :=
      match elseB with
      | some _ => else_label
      | Option.none => end_label
    let st1 := writeV st ["// if " ++ ct ++ ":"]
    let st2 := incLevel st1
    let st3 := writeV st2 teal
    let st4 := writeV st3 ["bz " ++ next_label]
    let st5 := writeV st4 ["// then:"]
    match visitStmts sid thenB (incLevel st5) with
    | Except.error e => Except.error e
    | Except.ok st6 =>
      let st7 := decLevel st6
      match elseB with
      | Option.none =>
        Except.ok (decLevel (writeV st7 [end_label ++ ": // end"]))
      | some es =>
        let st8 := writeV st7 ["b " ++ end_label]
        let st9 := writeV st8 [else_label ++ ":"]
        let st10 := writeV st9 ["// else:"]
        match visitStmts sid es (incLevel st10) with
        | Except.error e => Except.error e
        | Except.ok st11 =>
          Except.ok (decLevel (writeV (decLevel st11) [end_label ++ ": // end"]))
  | .constA name ty v =>
    let sc := getScope st.scopes sid
    let sc2 := { sc with consts := dset sc.consts name (ty, v) }
    Except.ok { st with scopes := setScope st.scopes sid sc2 }
  | .exitA e =>
    let st1 := writeV st ["// exit(" ++ exprText e ++ ")"]
    match exprTealF st.scopes sid e with
    | Except.error err => Except.error err
    | Except.ok teal => Except.ok (writeV (writeV st1 teal) ["return"])
  | .callA f =>
    let st1 := writeV st ["// " ++ f ++ "()"]
    match getFuncF st.scopes sid f with
    | Option.none => Except.error ("unresolved name: " ++ f)
    | some label => Except.ok (writeV st1 ["callsub " ++ label])
  | .intA name v =>
    match declareVarA st sid name StackType.int with
    | Except.error e => Except.error e
    | Except.ok (slot, st1) =>
      let line := "int " ++ name ++
        (match v with
         | some e => " = " ++ exprText e
         | Option.none => "")
      let st2 := writeV st1 ["// " ++ line ++ " [slot " ++ Nat.repr slot ++ "]"]
      match v with
      | Option.none => Except.ok st2
      | some e =>
        match exprTealF st2.scopes sid e with
        | Except.error err => Except.error err
        | Except.ok teal =>
          Except.ok (writeV (writeV st2 teal)
            ["store " ++ Nat.repr slot ++ " // " ++ name])
  | .assignA name e =>
    match exprTealF st.scopes sid e with
    | Except.error err => Except.error err
    | Except.ok teal =>
      let st1 := writeV st ["// " ++ name ++ " = " ++ exprText e]
      let st2 := writeV st1 teal
      match get_var ((scopeChain st.scopes sid).map toScopeE) name with
      | Option.none =>
        Except.error ("Var " ++ name ++ " not declared in current scope")
      | some sv => Except.ok (writeV st2 ["store " ++ Nat.repr sv.1 ++ " // " ++ name])
  | .returnA =>
    Except.ok (writeV (writeV st ["// return"]) ["retsub"])

def visitStmts (sid : Nat) (stmts : List AStmt) (st : VisitSt) : Except String VisitSt :=
  match stmts with
  | [] => Except.ok st
  | a :: rest =>
    match visitStmt sid a st with
    | Except.error e => Except.error e
    | Except.ok st1 => visitStmts sid rest st1

end

/-- Program.consume: the root scope exists before any statement is
parsed; all top-level statements live in it. -/
def parseProgram (prog : List FStmt) : List AStmt × ParseSt :=
  parseStmts 0 prog { scopes := [defaultFScope], conditional_count := 0 }

/-- The pipeline on the fragment: parse then visit, with the parse-pass
scope arena carried into the code generator. -/
def compileFragment (prog : List FStmt) : Except String (List String) :=
  let (astmts, pst) := parseProgram prog
  match visitStmts 0 astmts { cs := initState, scopes := pst.scopes } with
  | Except.ok st => Except.ok st.cs.output
  | Except.error e => Except.error e

theorem getScope_setScope (scopes : List FScope) (sid : Nat) (sc : FScope)
    (h : sid < scopes.length) : getScope (setScope scopes sid sc) sid = sc := by
  unfold getScope setScope
  rw [List.getD_eq_getElem?_getD, List.getElem?_set_self (by simpa using h)]
  rfl

/-- C8 counterexample: a program that declares two sibling blocks with
the same name compiles without any error — the second registration
silently overwrites the first, and both label definitions are emitted. -/
theorem block_redeclaration_not_an_error :
    compileFragment [FStmt.blockS "foo" [], FStmt.blockS "foo" []] =
      Except.ok ["// block foo", "foo:", "// block foo", "foo:"] := by
  rfl

/-- C8 (amended).  Declaring a variable fails whenever the name already
resolves anywhere in the active scope chain; but constants, named
blocks and subroutines are registered with no redeclaration check at
all — a second registration of the same name in the same scope always
succeeds and silently overwrites the first. -/
theorem redeclaration_only_checked_for_variables :
    (∀ (maxSlot : Nat) (cur : ScopeE) (parents : List ScopeE) (name : String)
        (ty : StackType) (v : Nat × StackType),
      get_var (cur :: parents) name = some v →
      declare_var maxSlot cur parents name ty =
        Except.error ("Redefinition of variable " ++ name)) ∧
    (∀ (st : ParseSt) (sid : Nat) (name l1 l2 : String),
      sid < st.scopes.length →
      dget (getScope (registerBlock (registerBlock st sid name l1) sid name l2).scopes
        sid).blocks name = some l2) ∧
    (∀ (st : ParseSt) (sid : Nat) (name l1 l2 : String),
      sid < st.scopes.length →
      dget (getScope (registerFunc (registerFunc st sid name l1) sid name l2).scopes
        sid).functionsTbl name = some l2) ∧
    (∀ (st : VisitSt) (sid : Nat) (name : String) (ty : StackType) (v : Nat),
      ∃ st', visitStmt sid (AStmt.constA name ty v) st = Except.ok st') := by
  refine ⟨?_, ?_, ?_, ?_⟩
  · intro maxSlot cur parents name ty v h
    unfold declare_var
    rw [h]
  · intro st sid name l1 l2 h
    show dget (getScope (registerBlock (registerBlock st sid name l1) sid name l2).scopes
      sid).blocks name = some l2
    unfold registerBlock
    have h1 : sid < (setScope st.scopes sid
        { getScope st.scopes sid with
          blocks := dset (getScope st.scopes sid).blocks name l1 }).length := by
      unfold setScope
      simpa using h
    simp only [getScope_setScope _ _ _ h, getScope_setScope _ _ _ h1]
    rw [dget_dset]
    simp
  · intro st sid name l1 l2 h
    unfold registerFunc
    have h1 : sid < (setScope st.scopes sid
        { getScope st.scopes sid with
          functionsTbl := dset (getScope st.scopes sid).functionsTbl name l1 }).length := by
      unfold setScope
      simpa using h
    simp only [getScope_setScope _ _ _ h, getScope_setScope _ _ _ h1]
    rw [dget_dset]
    simp
  · intro st sid name ty v
    exact ⟨_, rfl⟩

/-- Witness for C8 (amended): a concrete redefinition of a variable
fails, while a concrete re-registration of block name "foo" yields the
second label with no error. -/
theorem redeclaration_only_checked_for_variables_witness :
    declare_var 0 ⟨"", (0, 200), [("x", (0, StackType.int))]⟩ [] "x" StackType.int =
      Except.error ("Redefinition of variable " ++ "x") ∧
    dget (getScope (registerBlock (registerBlock
        { scopes := [defaultFScope], conditional_count := 0 } 0 "foo" "a") 0
        "foo" "b").scopes 0).blocks "foo" = some "b" := by
  constructor
  · exact redeclaration_only_checked_for_variables.1 0
      ⟨"", (0, 200), [("x", (0, StackType.int))]⟩ [] "x" StackType.int
      (0, StackType.int) (by decide)
  · exact redeclaration_only_checked_for_variables.2.1
      { scopes := [defaultFScope], conditional_count := 0 } 0 "foo" "a" "b"
      (by decide)

/-! #### Parse-pass bookkeeping lemmas -/

theorem registerBlock_scopes_len (st : ParseSt) (sid : Nat) (name label : String) :
    (registerBlock st sid name label).scopes.length = st.scopes.length := by
  simp [registerBlock, setScope]

theorem registerFunc_scopes_len (st : ParseSt) (sid : Nat) (name label : String) :
    (registerFunc st sid name label).scopes.length = st.scopes.length := by
  simp [registerFunc, setScope]

theorem pushScope_scopes_len (st : ParseSt) (pid : Nat) (cn : String) :
    ((pushScope st pid cn).2).scopes.length = st.scopes.length + 1 := by
  simp [pushScope]

mutual

theorem parseStmt_scopes_len (sid : Nat) (s : FStmt) (st : ParseSt) :
    st.scopes.length ≤ ((parseStmt sid s st).2).scopes.length := by
  cases s with
  | blockS name body =>
    have h1 : ((parseStmt sid (FStmt.blockS name body) st).2) =
        (parseStmts (registerBlock st sid name
            (blockLabelOf (getScope st.scopes sid).name name)).scopes.length body
          (pushScope (registerBlock st sid name
            (blockLabelOf (getScope st.scopes sid).name name)) sid name).2).2 := rfl
    rw [h1]
    have h2 := parseStmts_scopes_len
      (registerBlock st sid name
        (blockLabelOf (getScope st.scopes sid).name name)).scopes.length body
      (pushScope (registerBlock st sid name
        (blockLabelOf (getScope st.scopes sid).name name)) sid name).2
    have h3 := pushScope_scopes_len (registerBlock st sid name
      (blockLabelOf (getScope st.scopes sid).name name)) sid name
    have h4 := registerBlock_scopes_len st sid name
      (blockLabelOf (getScope st.scopes sid).name name)
    omega
  | funcS name body =>
    have h1 : ((parseStmt sid (FStmt.funcS name body) st).2) =
        (parseStmts (registerFunc st sid name
            (funcLabelOf (getScope st.scopes sid).name name)).scopes.length body
          (pushScope (registerFunc st sid name
            (funcLabelOf (getScope st.scopes sid).name name)) sid
            ("func__" ++ name)).2).2 := rfl
    rw [h1]
    have h2 := parseStmts_scopes_len
      (registerFunc st sid name
        (funcLabelOf (getScope st.scopes sid).name name)).scopes.length body
      (pushScope (registerFunc st sid name
        (funcLabelOf (getScope st.scopes sid).name name)) sid ("func__" ++ name)).2
    have h3 := pushScope_scopes_len (registerFunc st sid name
      (funcLabelOf (getScope st.scopes sid).name name)) sid ("func__" ++ name)
    have h4 := registerFunc_scopes_len st sid name
      (funcLabelOf (getScope st.scopes sid).name name)
    omega
  | jumpS name => exact Nat.le_refl _
  | ifS ct teal thenB elseB =>
    cases elseB with
    | none =>
      have h1 : ((parseStmt sid (FStmt.ifS ct teal thenB Option.none) st).2) =
          (parseStmts sid thenB
            { st with conditional_count := st.conditional_count + 1 }).2 := rfl
      rw [h1]
      have h2 := parseStmts_scopes_len sid thenB
        { st with conditional_count := st.conditional_count + 1 }
      have hb : ({ st with conditional_count := st.conditional_count + 1 } :
          ParseSt).scopes.length = st.scopes.length := rfl
      omega
    | some es =>
      have h1 : ((parseStmt sid (FStmt.ifS ct teal thenB (some es)) st).2) =
          (parseStmts sid es
            (parseStmts sid thenB
              { st with conditional_count := st.conditional_count + 1 }).2).2 := rfl
      rw [h1]
      have h2 := parseStmts_scopes_len sid thenB
        { st with conditional_count := st.conditional_count + 1 }
      have h3 := parseStmts_scopes_len sid es
        (parseStmts sid thenB
          { st with conditional_count := st.conditional_count + 1 }).2
      have hb : ({ st with conditional_count := st.conditional_count + 1 } :
          ParseSt).scopes.length = st.scopes.length := rfl
      omega
  | constS name ty v => exact Nat.le_refl _
  | exitS e => exact Nat.le_refl _
  | callS f => exact Nat.le_refl _
  | intS n v => exact Nat.le_refl _
  | assignS n e => exact Nat.le_refl _
  | returnS => exact Nat.le_refl _

theorem parseStmts_scopes_len (sid : Nat) (ss : List FStmt) (st : ParseSt) :
    st.scopes.length ≤ ((parseStmts sid ss st).2).scopes.length := by
  cases ss with
  | nil => exact Nat.le_refl _
  | cons s rest =>
    have h1 : ((parseStmts sid (s :: rest) st).2) =
        (parseStmts sid rest (parseStmt sid s st).2).2 := rfl
    rw [h1]
    have h2 := parseStmt_scopes_len sid s st
    have h3 := parseStmts_scopes_len sid rest (parseStmt sid s st).2
    omega

end

theorem parseStmt_blockS_snd (sid : Nat) (name : String) (body : List FStmt)
    (st : ParseSt) :
    (parseStmt sid (FStmt.blockS name body) st).2 =
      (parseStmts (registerBlock st sid name
          (blockLabelOf (getScope st.scopes sid).name name)).scopes.length body
        (pushScope (registerBlock st sid name
          (blockLabelOf (getScope st.scopes sid).name name)) sid name).2).2 := rfl

theorem parseStmt_funcS_snd (sid : Nat) (name : String) (body : List FStmt)
    (st : ParseSt) :
    (parseStmt sid (FStmt.funcS name body) st).2 =
      (parseStmts (registerFunc st sid name
          (funcLabelOf (getScope st.scopes sid).name name)).scopes.length body
        (pushScope (registerFunc st sid name
          (funcLabelOf (getScope st.scopes sid).name name)) sid
          ("func__" ++ name)).2).2 := rfl

theorem parseStmt_ifS_none_snd (sid : Nat) (ct : String) (teal : List String)
    (thenB : List FStmt) (st : ParseSt) :
    (parseStmt sid (FStmt.ifS ct teal thenB Option.none) st).2 =
      (parseStmts sid thenB
        { st with conditional_count := st.conditional_count + 1 }).2 := rfl

theorem parseStmt_ifS_some_snd (sid : Nat) (ct : String) (teal : List String)
    (thenB es : List FStmt) (st : ParseSt) :
    (parseStmt sid (FStmt.ifS ct teal thenB (some es)) st).2 =
      (parseStmts sid es
        (parseStmts sid thenB
          { st with conditional_count := st.conditional_count + 1 }).2).2 := rfl

theorem parseStmts_cons_snd (sid : Nat) (s : FStmt) (rest : List FStmt)
    (st : ParseSt) :
    (parseStmts sid (s :: rest) st).2 =
      (parseStmts sid rest (parseStmt sid s st).2).2 := rfl

theorem registerBlock_scopes (st : ParseSt) (sid : Nat) (name label : String) :
    (registerBlock st sid name label).scopes =
      st.scopes.set sid
        { getScope st.scopes sid with
          blocks := dset (getScope st.scopes sid).blocks name label } := rfl

theorem registerFunc_scopes (st : ParseSt) (sid : Nat) (name label : String) :
    (registerFunc st sid name label).scopes =
      st.scopes.set sid
        { getScope st.scopes sid with
          functionsTbl := dset (getScope st.scopes sid).functionsTbl name label } := rfl

theorem pushScope_scopes (st : ParseSt) (pid : Nat) (cn : String) :
    ((pushScope st pid cn).2).scopes =
      st.scopes ++ [{ defaultFScope with
        name := qualifiedName (getScope st.scopes pid).name cn,
        parent := some pid }] := rfl

theorem getScope_of_getElem? (scopes : List FScope) (j : Nat) (sc : FScope)
    (h : scopes[j]? = some sc) : getScope scopes j = sc := by
  unfold getScope
  rw [List.getD_eq_getElem?_getD, h]
  rfl

theorem lt_length_of_getElem? (scopes : List FScope) (j : Nat) (sc : FScope)
    (h : scopes[j]? = some sc) : j < scopes.length := by
  by_contra hc
  push_neg at hc
  rw [List.getElem?_eq_none hc] at h
  cases h

/-- Preservation of a scope's fields other than the registries: the
parse pass only ever registers blocks and functions into existing
scopes and appends fresh scopes. -/
def FieldsEq (sc' sc : FScope) : Prop :=
  sc'.name = sc.name ∧ sc'.parent = sc.parent ∧ sc'.slot_range = sc.slot_range ∧
    sc'.slots = sc.slots ∧ sc'.consts = sc.consts

theorem fieldsEq_refl (sc : FScope) : FieldsEq sc sc :=
  ⟨rfl, rfl, rfl, rfl, rfl⟩

theorem fieldsEq_trans (a b c : FScope) (h1 : FieldsEq a b) (h2 : FieldsEq b c) :
    FieldsEq a c := by
  obtain ⟨x1, x2, x3, x4, x5⟩ := h1
  obtain ⟨y1, y2, y3, y4, y5⟩ := h2
  exact ⟨x1.trans y1, x2.trans y2, x3.trans y3, x4.trans y4, x5.trans y5⟩

theorem pres_fields_register_block (st : ParseSt) (sid : Nat) (name label : String)
    (j : Nat) (sc : FScope) (h : st.scopes[j]? = some sc) :
    ∃ sc', (registerBlock st sid name label).scopes[j]? = some sc' ∧
      FieldsEq sc' sc ∧ sc'.functionsTbl = sc.functionsTbl := by
  rw [registerBlock_scopes]
  by_cases hj : sid = j
  · subst hj
    rw [List.getElem?_set_self (lt_length_of_getElem? _ _ _ h)]
    rw [getScope_of_getElem? _ _ _ h]
    exact ⟨_, rfl, fieldsEq_refl _, rfl⟩
  · rw [List.getElem?_set_ne hj, h]
    exact ⟨sc, rfl, fieldsEq_refl _, rfl⟩

theorem pres_fields_register_func (st : ParseSt) (sid : Nat) (name label : String)
    (j : Nat) (sc : FScope) (h : st.scopes[j]? = some sc) :
    ∃ sc', (registerFunc st sid name label).scopes[j]? = some sc' ∧
      FieldsEq sc' sc ∧ sc'.blocks = sc.blocks := by
  rw [registerFunc_scopes]
  by_cases hj : sid = j
  · subst hj
    rw [List.getElem?_set_self (lt_length_of_getElem? _ _ _ h)]
    rw [getScope_of_getElem? _ _ _ h]
    exact ⟨_, rfl, fieldsEq_refl _, rfl⟩
  · rw [List.getElem?_set_ne hj, h]
    exact ⟨sc, rfl, fieldsEq_refl _, rfl⟩

theorem pres_push (st : ParseSt) (pid : Nat) (cn : String) (j : Nat) (sc : FScope)
    (h : st.scopes[j]? = some sc) : ((pushScope st pid cn).2).scopes[j]? = some sc := by
  rw [pushScope_scopes, List.getElem?_append,
    if_pos (lt_length_of_getElem? _ _ _ h)]
  exact h

mutual

theorem parseStmt_pres_fields (sid : Nat) (s : FStmt) (st : ParseSt) (j : Nat)
    (sc : FScope) (h : st.scopes[j]? = some sc) :
    ∃ sc', ((parseStmt sid s st).2).scopes[j]? = some sc' ∧ FieldsEq sc' sc := by
  cases s with
  | blockS name body =>
    rw [parseStmt_blockS_snd]
    obtain ⟨sc1, h1, hf1, -⟩ := pres_fields_register_block st sid name
      (blockLabelOf (getScope st.scopes sid).name name) j sc h
    have h2 := pres_push (registerBlock st sid name
      (blockLabelOf (getScope st.scopes sid).name name)) sid name j sc1 h1
    obtain ⟨sc2, h3, hf2⟩ := parseStmts_pres_fields
      (registerBlock st sid name
        (blockLabelOf (getScope st.scopes sid).name name)).scopes.length body
      (pushScope (registerBlock st sid name
        (blockLabelOf (getScope st.scopes sid).name name)) sid name).2 j sc1 h2
    exact ⟨sc2, h3, fieldsEq_trans _ _ _ hf2 hf1⟩
  | funcS name body =>
    rw [parseStmt_funcS_snd]
    obtain ⟨sc1, h1, hf1, -⟩ := pres_fields_register_func st sid name
      (funcLabelOf (getScope st.scopes sid).name name) j sc h
    have h2 := pres_push (registerFunc st sid name
      (funcLabelOf (getScope st.scopes sid).name name)) sid ("func__" ++ name) j sc1 h1
    obtain ⟨sc2, h3, hf2⟩ := parseStmts_pres_fields
      (registerFunc st sid name
        (funcLabelOf (getScope st.scopes sid).name name)).scopes.length body
      (pushScope (registerFunc st sid name
        (funcLabelOf (getScope st.scopes sid).name name)) sid
        ("func__" ++ name)).2 j sc1 h2
    exact ⟨sc2, h3, fieldsEq_trans _ _ _ hf2 hf1⟩
  | jumpS name => exact ⟨sc, h, fieldsEq_refl sc⟩
  | ifS ct teal thenB elseB =>
    cases elseB with
    | none =>
      rw [parseStmt_ifS_none_snd]
      exact parseStmts_pres_fields sid thenB
        { st with conditional_count := st.conditional_count + 1 } j sc h
    | some es =>
      rw [parseStmt_ifS_some_snd]
      obtain ⟨sc1, h1, hf1⟩ := parseStmts_pres_fields sid thenB
        { st with conditional_count := st.conditional_count + 1 } j sc h
      obtain ⟨sc2, h2, hf2⟩ := parseStmts_pres_fields sid es
        (parseStmts sid thenB
          { st with conditional_count := st.conditional_count + 1 }).2 j sc1 h1
      exact ⟨sc2, h2, fieldsEq_trans _ _ _ hf2 hf1⟩
  | constS name ty v => exact ⟨sc, h, fieldsEq_refl sc⟩
  | exitS e => exact ⟨sc, h, fieldsEq_refl sc⟩
  | callS f => exact ⟨sc, h, fieldsEq_refl sc⟩
  | intS n v => exact ⟨sc, h, fieldsEq_refl sc⟩
  | assignS n e => exact ⟨sc, h, fieldsEq_refl sc⟩
  | returnS => exact ⟨sc, h, fieldsEq_refl sc⟩

theorem parseStmts_pres_fields (sid : Nat) (ss : List FStmt) (st : ParseSt) (j : Nat)
    (sc : FScope) (h : st.scopes[j]? = some sc) :
    ∃ sc', ((parseStmts sid ss st).2).scopes[j]? = some sc' ∧ FieldsEq sc' sc := by
  cases ss with
  | nil => exact ⟨sc, h, fieldsEq_refl sc⟩
  | cons s rest =>
    rw [parseStmts_cons_snd]
    obtain ⟨sc1, h1, hf1⟩ := parseStmt_pres_fields sid s st j sc h
    obtain ⟨sc2, h2, hf2⟩ := parseStmts_pres_fields sid rest (parseStmt sid s st).2 j sc1 h1
    exact ⟨sc2, h2, fieldsEq_trans _ _ _ hf2 hf1⟩

end

mutual

/-- A statement parsed in scope sid registers only into scope sid and
into freshly appended scopes: every other existing scope is untouched. -/
theorem parseStmt_pres_other (sid : Nat) (s : FStmt) (st : ParseSt) (j : Nat)
    (hne : j ≠ sid) (hlt : j < st.scopes.length) :
    ((parseStmt sid s st).2).scopes[j]? = st.scopes[j]? := by
  cases s with
  | blockS name body =>
    rw [parseStmt_blockS_snd]
    have e1 : (registerBlock st sid name
        (blockLabelOf (getScope st.scopes sid).name name)).scopes[j]? =
        st.scopes[j]? := by
      rw [registerBlock_scopes, List.getElem?_set_ne (fun hh => hne hh.symm)]
    have hl1 : j < (registerBlock st sid name
        (blockLabelOf (getScope st.scopes sid).name name)).scopes.length := by
      rw [registerBlock_scopes_len]
      exact hlt
    have e2 : ((pushScope (registerBlock st sid name
        (blockLabelOf (getScope st.scopes sid).name name)) sid name).2).scopes[j]? =
        st.scopes[j]? := by
      rw [pushScope_scopes, List.getElem?_append, if_pos hl1]
      exact e1
    have hcsid : j ≠ (registerBlock st sid name
        (blockLabelOf (getScope st.scopes sid).name name)).scopes.length := by
      rw [registerBlock_scopes_len]
      omega
    have hl2 : j < ((pushScope (registerBlock st sid name
        (blockLabelOf (getScope st.scopes sid).name name)) sid name).2).scopes.length := by
      rw [pushScope_scopes_len, registerBlock_scopes_len]
      omega
    rw [parseStmts_pres_other
      (registerBlock st sid name
        (blockLabelOf (getScope st.scopes sid).name name)).scopes.length body
      (pushScope (registerBlock st sid name
        (blockLabelOf (getScope st.scopes sid).name name)) sid name).2 j hcsid hl2]
    exact e2
  | funcS name body =>
    rw [parseStmt_funcS_snd]
    have e1 : (registerFunc st sid name
        (funcLabelOf (getScope st.scopes sid).name name)).scopes[j]? =
        st.scopes[j]? := by
      rw [registerFunc_scopes, List.getElem?_set_ne (fun hh => hne hh.symm)]
    have hl1 : j < (registerFunc st sid name
        (funcLabelOf (getScope st.scopes sid).name name)).scopes.length := by
      rw [registerFunc_scopes_len]
      exact hlt
    have e2 : ((pushScope (registerFunc st sid name
        (funcLabelOf (getScope st.scopes sid).name name)) sid
        ("func__" ++ name)).2).scopes[j]? = st.scopes[j]? := by
      rw [pushScope_scopes, List.getElem?_append, if_pos hl1]
      exact e1
    have hcsid : j ≠ (registerFunc st sid name
        (funcLabelOf (getScope st.scopes sid).name name)).scopes.length := by
      rw [registerFunc_scopes_len]
      omega
    have hl2 : j < ((pushScope (registerFunc st sid name
        (funcLabelOf (getScope st.scopes sid).name name)) sid
        ("func__" ++ name)).2).scopes.length := by
      rw [pushScope_scopes_len, registerFunc_scopes_len]
      omega
    rw [parseStmts_pres_other
      (registerFunc st sid name
        (funcLabelOf (getScope st.scopes sid).name name)).scopes.length body
      (pushScope (registerFunc st sid name
        (funcLabelOf (getScope st.scopes sid).name name)) sid
        ("func__" ++ name)).2 j hcsid hl2]
    exact e2
  | jumpS name => rfl
  | ifS ct teal thenB elseB =>
    cases elseB with
    | none =>
      rw [parseStmt_ifS_none_snd]
      exact parseStmts_pres_other sid thenB
        { st with conditional_count := st.conditional_count + 1 } j hne hlt
    | some es =>
      rw [parseStmt_ifS_some_snd]
      have h1 := parseStmts_pres_other sid thenB
        { st with conditional_count := st.conditional_count + 1 } j hne hlt
      have hl1 : j < ((parseStmts sid thenB
          { st with conditional_count := st.conditional_count + 1 }).2).scopes.length := by
        have := parseStmts_scopes_len sid thenB
          { st with conditional_count := st.conditional_count + 1 }
        have hb : ({ st with conditional_count := st.conditional_count + 1 } :
            ParseSt).scopes.length = st.scopes.length := rfl
        omega
      rw [parseStmts_pres_other sid es
        (parseStmts sid thenB
          { st with conditional_count := st.conditional_count + 1 }).2 j hne hl1]
      exact h1
  | constS name ty v => rfl
  | exitS e => rfl
  | callS f => rfl
  | intS n v => rfl
  | assignS n e => rfl
  | returnS => rfl

theorem parseStmts_pres_other (sid : Nat) (ss : List FStmt) (st : ParseSt) (j : Nat)
    (hne : j ≠ sid) (hlt : j < st.scopes.length) :
    ((parseStmts sid ss st).2).scopes[j]? = st.scopes[j]? := by
  cases ss with
  | nil => rfl
  | cons s rest =>
    rw [parseStmts_cons_snd]
    have h1 := parseStmt_pres_other sid s st j hne hlt
    have hl1 : j < ((parseStmt sid s st).2).scopes.length := by
      have := parseStmt_scopes_len sid s st
      omega
    rw [parseStmts_pres_other sid rest (parseStmt sid s st).2 j hne hl1]
    exact h1

end

theorem blockLabelOf_root (m : String) : blockLabelOf "" m = m := by
  simp [blockLabelOf]

theorem funcLabelOf_root (m : String) : funcLabelOf "" m = "__func__" ++ m := by
  simp [funcLabelOf]

theorem register_block_at_zero (st : ParseSt) (m label : String) (sc : FScope)
    (h : st.scopes[0]? = some sc) :
    (registerBlock st 0 m label).scopes[0]? =
      some { sc with blocks := dset sc.blocks m label } := by
  rw [registerBlock_scopes, getScope_of_getElem? _ _ _ h,
    List.getElem?_set_self (lt_length_of_getElem? _ _ _ h)]

theorem register_func_at_zero (st : ParseSt) (m label : String) (sc : FScope)
    (h : st.scopes[0]? = some sc) :
    (registerFunc st 0 m label).scopes[0]? =
      some { sc with functionsTbl := dset sc.functionsTbl m label } := by
  rw [registerFunc_scopes, getScope_of_getElem? _ _ _ h,
    List.getElem?_set_self (lt_length_of_getElem? _ _ _ h)]

/-- After registering a block at the root and parsing its body in the
fresh child scope, the root entry is the registered one. -/
theorem parse_block_root_effect (st : ParseSt) (m : String) (body : List FStmt)
    (sc : FScope) (h : st.scopes[0]? = some sc) :
    ((parseStmt 0 (FStmt.blockS m body) st).2).scopes[0]? =
      some { sc with
        blocks := dset sc.blocks m (blockLabelOf (getScope st.scopes 0).name m) } := by
  rw [parseStmt_blockS_snd]
  have h1 := register_block_at_zero st m
    (blockLabelOf (getScope st.scopes 0).name m) sc h
  have h2 := pres_push (registerBlock st 0 m
    (blockLabelOf (getScope st.scopes 0).name m)) 0 m 0 _ h1
  have hcsid : (0 : Nat) ≠ (registerBlock st 0 m
      (blockLabelOf (getScope st.scopes 0).name m)).scopes.length := by
    rw [registerBlock_scopes_len]
    have := lt_length_of_getElem? _ _ _ h
    omega
  have hl2 : (0 : Nat) < ((pushScope (registerBlock st 0 m
      (blockLabelOf (getScope st.scopes 0).name m)) 0 m).2).scopes.length := by
    rw [pushScope_scopes_len]
    omega
  rw [parseStmts_pres_other _ body _ 0 hcsid hl2]
  exact h2

theorem parse_func_root_effect (st : ParseSt) (m : String) (body : List FStmt)
    (sc : FScope) (h : st.scopes[0]? = some sc) :
    ((parseStmt 0 (FStmt.funcS m body) st).2).scopes[0]? =
      some { sc with
        functionsTbl := dset sc.functionsTbl m
          (funcLabelOf (getScope st.scopes 0).name m) } := by
  rw [parseStmt_funcS_snd]
  have h1 := register_func_at_zero st m
    (funcLabelOf (getScope st.scopes 0).name m) sc h
  have h2 := pres_push (registerFunc st 0 m
    (funcLabelOf (getScope st.scopes 0).name m)) 0 ("func__" ++ m) 0 _ h1
  have hcsid : (0 : Nat) ≠ (registerFunc st 0 m
      (funcLabelOf (getScope st.scopes 0).name m)).scopes.length := by
    rw [registerFunc_scopes_len]
    have := lt_length_of_getElem? _ _ _ h
    omega
  have hl2 : (0 : Nat) < ((pushScope (registerFunc st 0 m
      (funcLabelOf (getScope st.scopes 0).name m)) 0 ("func__" ++ m)).2).scopes.length := by
    rw [pushScope_scopes_len]
    omega
  rw [parseStmts_pres_other _ body _ 0 hcsid hl2]
  exact h2

mutual

/-- Once a block named n is registered in the root scope (with label n,
the root qualified name being empty), parsing further statements keeps
that registration resolvable. -/
theorem parseStmt_root_keep_block (s : FStmt) (st : ParseSt) (n : String) (sc : FScope)
    (h : st.scopes[0]? = some sc) (hname : sc.name = "")
    (hval : dget sc.blocks n = some n) :
    ∃ sc', ((parseStmt 0 s st).2).scopes[0]? = some sc' ∧ sc'.name = "" ∧
      dget sc'.blocks n = some n := by
  cases s with
  | blockS m body =>
    have he := parse_block_root_effect st m body sc h
    refine ⟨_, he, hname, ?_⟩
    rw [getScope_of_getElem? _ _ _ h, hname, blockLabelOf_root]
    rw [dget_dset]
    by_cases hnm : n = m
    · rw [if_pos hnm, hnm]
    · rw [if_neg hnm]
      exact hval
  | funcS m body =>
    rw [parseStmt_funcS_snd]
    obtain ⟨sc1, h1, hf1, hb1⟩ := pres_fields_register_func st 0 m
      (funcLabelOf (getScope st.scopes 0).name m) 0 sc h
    have h2 := pres_push (registerFunc st 0 m
      (funcLabelOf (getScope st.scopes 0).name m)) 0 ("func__" ++ m) 0 sc1 h1
    have hcsid : (0 : Nat) ≠ (registerFunc st 0 m
        (funcLabelOf (getScope st.scopes 0).name m)).scopes.length := by
      rw [registerFunc_scopes_len]
      have := lt_length_of_getElem? _ _ _ h
      omega
    have hl2 : (0 : Nat) < ((pushScope (registerFunc st 0 m
        (funcLabelOf (getScope st.scopes 0).name m)) 0 ("func__" ++ m)).2).scopes.length := by
      rw [pushScope_scopes_len]
      omega
    rw [parseStmts_pres_other _ body _ 0 hcsid hl2]
    exact ⟨sc1, h2, hf1.1.trans hname, hb1 ▸ hval⟩
  | jumpS m => exact ⟨sc, h, hname, hval⟩
  | ifS ct teal thenB elseB =>
    cases elseB with
    | none =>
      rw [parseStmt_ifS_none_snd]
      exact parseStmts_root_keep_block thenB
        { st with conditional_count := st.conditional_count + 1 } n sc h hname hval
    | some es =>
      rw [parseStmt_ifS_some_snd]
      obtain ⟨sc1, h1, hn1, hv1⟩ := parseStmts_root_keep_block thenB
        { st with conditional_count := st.conditional_count + 1 } n sc h hname hval
      exact parseStmts_root_keep_block es _ n sc1 h1 hn1 hv1
  | constS m ty v => exact ⟨sc, h, hname, hval⟩
  | exitS e => exact ⟨sc, h, hname, hval⟩
  | callS f => exact ⟨sc, h, hname, hval⟩
  | intS m v => exact ⟨sc, h, hname, hval⟩
  | assignS m e => exact ⟨sc, h, hname, hval⟩
  | returnS => exact ⟨sc, h, hname, hval⟩

theorem parseStmts_root_keep_block (ss : List FStmt) (st : ParseSt) (n : String)
    (sc : FScope) (h : st.scopes[0]? = some sc) (hname : sc.name = "")
    (hval : dget sc.blocks n = some n) :
    ∃ sc', ((parseStmts 0 ss st).2).scopes[0]? = some sc' ∧ sc'.name = "" ∧
      dget sc'.blocks n = some n := by
  cases ss with
  | nil => exact ⟨sc, h, hname, hval⟩
  | cons s rest =>
    rw [parseStmts_cons_snd]
    obtain ⟨sc1, h1, hn1, hv1⟩ := parseStmt_root_keep_block s st n sc h hname hval
    exact parseStmts_root_keep_block rest (parseStmt 0 s st).2 n sc1 h1 hn1 hv1

end

mutual

theorem parseStmt_root_keep_func (s : FStmt) (st : ParseSt) (n : String) (sc : FScope)
    (h : st.scopes[0]? = some sc) (hname : sc.name = "")
    (hval : dget sc.functionsTbl n = some ("__func__" ++ n)) :
    ∃ sc', ((parseStmt 0 s st).2).scopes[0]? = some sc' ∧ sc'.name = "" ∧
      dget sc'.functionsTbl n = some ("__func__" ++ n) := by
  cases s with
  | blockS m body =>
    have he := parse_block_root_effect st m body sc h
    exact ⟨_, he, hname, hval⟩
  | funcS m body =>
    have he := parse_func_root_effect st m body sc h
    refine ⟨_, he, hname, ?_⟩
    rw [getScope_of_getElem? _ _ _ h, hname, funcLabelOf_root, dget_dset]
    by_cases hnm : n = m
    · rw [if_pos hnm, hnm]
    · rw [if_neg hnm]
      exact hval
  | jumpS m => exact ⟨sc, h, hname, hval⟩
  | ifS ct teal thenB elseB =>
    cases elseB with
    | none =>
      rw [parseStmt_ifS_none_snd]
      exact parseStmts_root_keep_func thenB
        { st with conditional_count := st.conditional_count + 1 } n sc h hname hval
    | some es =>
      rw [parseStmt_ifS_some_snd]
      obtain ⟨sc1, h1, hn1, hv1⟩ := parseStmts_root_keep_func thenB
        { st with conditional_count := st.conditional_count + 1 } n sc h hname hval
      exact parseStmts_root_keep_func es _ n sc1 h1 hn1 hv1
  | constS m ty v => exact ⟨sc, h, hname, hval⟩
  | exitS e => exact ⟨sc, h, hname, hval⟩
  | callS f => exact ⟨sc, h, hname, hval⟩
  | intS m v => exact ⟨sc, h, hname, hval⟩
  | assignS m e => exact ⟨sc, h, hname, hval⟩
  | returnS => exact ⟨sc, h, hname, hval⟩

theorem parseStmts_root_keep_func (ss : List FStmt) (st : ParseSt) (n : String)
    (sc : FScope) (h : st.scopes[0]? = some sc) (hname : sc.name = "")
    (hval : dget sc.functionsTbl n = some ("__func__" ++ n)) :
    ∃ sc', ((parseStmts 0 ss st).2).scopes[0]? = some sc' ∧ sc'.name = "" ∧
      dget sc'.functionsTbl n = some ("__func__" ++ n) := by
  cases ss with
  | nil => exact ⟨sc, h, hname, hval⟩
  | cons s rest =>
    rw [parseStmts_cons_snd]
    obtain ⟨sc1, h1, hn1, hv1⟩ := parseStmt_root_keep_func s st n sc h hname hval
    exact parseStmts_root_keep_func rest (parseStmt 0 s st).2 n sc1 h1 hn1 hv1

end

/-- Root-scope facts that the parse pass maintains: the root keeps its
empty qualified name, a nil parent, and duplicate-free registry keys. -/
def ParseRootInv (sc : FScope) : Prop :=
  sc.name = "" ∧ sc.parent = Option.none ∧
    (sc.blocks.map Prod.fst).Nodup ∧ (sc.functionsTbl.map Prod.fst).Nodup

mutual

theorem parseStmt_root_inv (s : FStmt) (st : ParseSt) (sc : FScope)
    (h : st.scopes[0]? = some sc) (hinv : ParseRootInv sc) :
    ∃ sc', ((parseStmt 0 s st).2).scopes[0]? = some sc' ∧ ParseRootInv sc' := by
  obtain ⟨hn, hp, hb, hf⟩ := hinv
  cases s with
  | blockS m body =>
    refine ⟨_, parse_block_root_effect st m body sc h, hn, hp, ?_, hf⟩
    exact dset_keys_nodup _ _ _ hb
  | funcS m body =>
    refine ⟨_, parse_func_root_effect st m body sc h, hn, hp, hb, ?_⟩
    exact dset_keys_nodup _ _ _ hf
  | jumpS m => exact ⟨sc, h, hn, hp, hb, hf⟩
  | ifS ct teal thenB elseB =>
    cases elseB with
    | none =>
      rw [parseStmt_ifS_none_snd]
      exact parseStmts_root_inv thenB
        { st with conditional_count := st.conditional_count + 1 } sc h ⟨hn, hp, hb, hf⟩
    | some es =>
      rw [parseStmt_ifS_some_snd]
      obtain ⟨sc1, h1, hinv1⟩ := parseStmts_root_inv thenB
        { st with conditional_count := st.conditional_count + 1 } sc h ⟨hn, hp, hb, hf⟩
      exact parseStmts_root_inv es _ sc1 h1 hinv1
  | constS m ty v => exact ⟨sc, h, hn, hp, hb, hf⟩
  | exitS e => exact ⟨sc, h, hn, hp, hb, hf⟩
  | callS f2 => exact ⟨sc, h, hn, hp, hb, hf⟩
  | intS m v => exact ⟨sc, h, hn, hp, hb, hf⟩
  | assignS m e => exact ⟨sc, h, hn, hp, hb, hf⟩
  | returnS => exact ⟨sc, h, hn, hp, hb, hf⟩

theorem parseStmts_root_inv (ss : List FStmt) (st : ParseSt) (sc : FScope)
    (h : st.scopes[0]? = some sc) (hinv : ParseRootInv sc) :
    ∃ sc', ((parseStmts 0 ss st).2).scopes[0]? = some sc' ∧ ParseRootInv sc' := by
  cases ss with
  | nil => exact ⟨sc, h, hinv⟩
  | cons s rest =>
    rw [parseStmts_cons_snd]
    obtain ⟨sc1, h1, hinv1⟩ := parseStmt_root_inv s st sc h hinv
    exact parseStmts_root_inv rest (parseStmt 0 s st).2 sc1 h1 hinv1

end

theorem parseStmts_root_registers_block (ss : List FStmt) :
    ∀ (st : ParseSt) (n : String) (body : List FStmt) (sc : FScope),
      st.scopes[0]? = some sc → sc.name = "" → FStmt.blockS n body ∈ ss →
      ∃ sc', ((parseStmts 0 ss st).2).scopes[0]? = some sc' ∧
        dget sc'.blocks n = some n := by
  induction ss with
  | nil =>
    intro st n body sc h hname hmem
    cases hmem
  | cons s rest ih =>
    intro st n body sc h hname hmem
    rw [parseStmts_cons_snd]
    rcases List.mem_cons.mp hmem with heq | hmem
    · subst heq
      have he := parse_block_root_effect st n body sc h
      have hreg : dget (dset sc.blocks n
          (blockLabelOf (getScope st.scopes 0).name n)) n = some n := by
        rw [getScope_of_getElem? _ _ _ h, hname, blockLabelOf_root, dget_dset,
          if_pos rfl]
      obtain ⟨sc', h', _, hv'⟩ := parseStmts_root_keep_block rest _ n _ he hname hreg
      exact ⟨sc', h', hv'⟩
    · obtain ⟨sc1, h1, hf1⟩ := parseStmt_pres_fields 0 s st 0 sc h
      exact ih (parseStmt 0 s st).2 n body sc1 h1 (hf1.1.trans hname) hmem

theorem parseStmts_root_registers_func (ss : List FStmt) :
    ∀ (st : ParseSt) (n : String) (body : List FStmt) (sc : FScope),
      st.scopes[0]? = some sc → sc.name = "" → FStmt.funcS n body ∈ ss →
      ∃ sc', ((parseStmts 0 ss st).2).scopes[0]? = some sc' ∧
        dget sc'.functionsTbl n = some ("__func__" ++ n) := by
  induction ss with
  | nil =>
    intro st n body sc h hname hmem
    cases hmem
  | cons s rest ih =>
    intro st n body sc h hname hmem
    rw [parseStmts_cons_snd]
    rcases List.mem_cons.mp hmem with heq | hmem
    · subst heq
      have he := parse_func_root_effect st n body sc h
      have hreg : dget (dset sc.functionsTbl n
          (funcLabelOf (getScope st.scopes 0).name n)) n =
          some ("__func__" ++ n) := by
        rw [getScope_of_getElem? _ _ _ h, hname, funcLabelOf_root, dget_dset,
          if_pos rfl]
      obtain ⟨sc', h', _, hv'⟩ := parseStmts_root_keep_func rest _ n _ he hname hreg
      exact ⟨sc', h', hv'⟩
    · obtain ⟨sc1, h1, hf1⟩ := parseStmt_pres_fields 0 s st 0 sc h
      exact ih (parseStmt 0 s st).2 n body sc1 h1 (hf1.1.trans hname) hmem

theorem chainScopes_single (scopes : List FScope) (sc : FScope)
    (h : scopes[0]? = some sc) (hp : sc.parent = Option.none) :
    scopeChain scopes 0 = [sc] := by
  unfold scopeChain
  have hlen := lt_length_of_getElem? _ _ _ h
  obtain ⟨m, hm⟩ : ∃ m, scopes.length = m + 1 := ⟨scopes.length - 1, by omega⟩
  rw [hm]
  show chainScopes scopes (m + 1) 0 = [sc]
  unfold chainScopes
  rw [h]
  show (match sc.parent with
    | Option.none => [sc]
    | some p => sc :: chainScopes scopes m p) = [sc]
  rw [hp]

theorem dget_dupdate_nil {α : Type} (l : List (String × α)) (k : String)
    (h : (l.map Prod.fst).Nodup) : dget (dupdate [] l) k = dget l k := by
  rw [dget_dupdate l [] k h]
  cases dget l k with
  | some v => rfl
  | none => rfl

theorem visitStmts_cons (sid : Nat) (a : AStmt) (rest : List AStmt) (st : VisitSt) :
    visitStmts sid (a :: rest) st =
      match visitStmt sid a st with
      | Except.error e => Except.error e
      | Except.ok st1 => visitStmts sid rest st1 := rfl

theorem visitStmt_exitA (sid : Nat) (e : FExpr) (st : VisitSt) :
    visitStmt sid (AStmt.exitA e) st =
      match exprTealF st.scopes sid e with
      | Except.error err => Except.error err
      | Except.ok teal =>
        Except.ok (writeV (writeV (writeV st ["// exit(" ++ exprText e ++ ")"]) teal)
          ["return"]) := by
  show (let st1 := writeV st ["// exit(" ++ exprText e ++ ")"]
    match exprTealF st.scopes sid e with
    | Except.error err => Except.error err
    | Except.ok teal => Except.ok (writeV (writeV st1 teal) ["return"])) = _
  cases exprTealF st.scopes sid e <;> rfl

theorem visitStmt_assignA (sid : Nat) (name : String) (e : FExpr) (st : VisitSt) :
    visitStmt sid (AStmt.assignA name e) st =
      match exprTealF st.scopes sid e with
      | Except.error err => Except.error err
      | Except.ok teal =>
        match get_var ((scopeChain st.scopes sid).map toScopeE) name with
        | Option.none =>
          Except.error ("Var " ++ name ++ " not declared in current scope")
        | some sv =>
          Except.ok (writeV (writeV (writeV st ["// " ++ name ++ " = " ++ exprText e])
            teal) ["store " ++ Nat.repr sv.1 ++ " // " ++ name]) := by
  cases he : exprTealF st.scopes sid e with
  | error err =>
    show (match exprTealF st.scopes sid e with
      | Except.error err => Except.error err
      | Except.ok teal => _) = _
    rw [he]
  | ok teal =>
    show (match exprTealF st.scopes sid e with
      | Except.error err => Except.error err
      | Except.ok teal =>
        match get_var ((scopeChain st.scopes sid).map toScopeE) name with
        | Option.none =>
          Except.error ("Var " ++ name ++ " not declared in current scope")
        | some sv =>
          Except.ok (writeV (writeV (writeV st ["// " ++ name ++ " = " ++ exprText e])
            teal) ["store " ++ Nat.repr sv.1 ++ " // " ++ name])) = _
    rw [he]

theorem exprTealF_constRef (scopes : List FScope) (sid : Nat) (c : String) :
    exprTealF scopes sid (FExpr.constRef c) =
      match getConstF scopes sid c with
      | some tv => Except.ok ["pushint " ++ Nat.repr tv.2]
      | Option.none => Except.error ("unresolved name: " ++ c) := by
  cases hg : getConstF scopes sid c with
  | some p =>
    obtain ⟨t, v⟩ := p
    show (match getConstF scopes sid c with
      | some (_, v) => Except.ok ["pushint " ++ Nat.repr v]
      | Option.none => Except.error ("unresolved name: " ++ c)) = _
    rw [hg]
  | none =>
    show (match getConstF scopes sid c with
      | some (_, v) => Except.ok ["pushint " ++ Nat.repr v]
      | Option.none => Except.error ("unresolved name: " ++ c)) = _
    rw [hg]

/-- The root scope after Const.process has stored one constant. -/
def constScope (c : String) (ty : StackType) (v : Nat) : FScope :=
  { defaultFScope with consts := [(c, (ty, v))] }

theorem compileFragment_eq (prog : List FStmt) :
    compileFragment prog =
      match visitStmts 0 (parseProgram prog).1
          { cs := initState, scopes := (parseProgram prog).2.scopes } with
      | Except.ok st => Except.ok st.cs.output
      | Except.error e => Except.error e := rfl

theorem parseStmts_cons_fst (sid : Nat) (s : FStmt) (rest : List FStmt) (st : ParseSt) :
    (parseStmts sid (s :: rest) st).1 =
      (parseStmt sid s st).1 :: (parseStmts sid rest (parseStmt sid s st).2).1 := rfl

/-- C7.  Forward references: a block or subroutine defined anywhere in
the unit (before or after the referencing statement) is registered into
its enclosing scope during the parse pass, so a jump or call resolves it
through get_blocks / get_scope; by contrast a constant or variable
becomes visible only when the generator visits its declaration, so a
reference that is visited first fails with an unresolved-name / ParseRoot
undeclared-variable error, while the same reference after the
declaration succeeds. -/
theorem two_pass_forward_reference_asymmetry :
    (∀ (prog : List FStmt) (n : String) (body : List FStmt),
      FStmt.blockS n body ∈ prog →
      getBlockF ((parseProgram prog).2).scopes 0 n = some n) ∧
    (∀ (prog : List FStmt) (f : String) (body : List FStmt),
      FStmt.funcS f body ∈ prog →
      getFuncF ((parseProgram prog).2).scopes 0 f = some ("__func__" ++ f)) ∧
    (∀ (c : String) (rest : List FStmt),
      compileFragment (FStmt.exitS (FExpr.constRef c) :: rest) =
        Except.error ("unresolved name: " ++ c)) ∧
    (∀ (c : String) (ty : StackType) (v : Nat),
      compileFragment [FStmt.constS c ty v, FStmt.exitS (FExpr.constRef c)] =
        Except.ok ["// exit(" ++ c ++ ")", "pushint " ++ Nat.repr v, "return"]) ∧
    (∀ (x : String) (k : Nat) (rest : List FStmt),
      compileFragment (FStmt.assignS x (FExpr.lit k) :: rest) =
        Except.error ("Var " ++ x ++ " not declared in current scope")) := by
  have hinit : (({ scopes := [defaultFScope], conditional_count := 0 } :
      ParseSt)).scopes[0]? = some defaultFScope := rfl
  have hinitInv : ParseRootInv defaultFScope :=
    ⟨rfl, rfl, List.Pairwise.nil, List.Pairwise.nil⟩
  refine ⟨?_, ?_, ?_, ?_, ?_⟩
  · intro prog n body hmem
    obtain ⟨scA, hA, hvA⟩ := parseStmts_root_registers_block prog
      { scopes := [defaultFScope], conditional_count := 0 } n body defaultFScope
      hinit rfl hmem
    obtain ⟨scB, hB, hnB, hpB, hbB, -⟩ := parseStmts_root_inv prog
      { scopes := [defaultFScope], conditional_count := 0 } defaultFScope
      hinit hinitInv
    have hAB : scA = scB := by
      rw [hA] at hB
      exact (Option.some.injEq _ _).mp hB
    subst hAB
    have hpp : (parseProgram prog).2 = (parseStmts 0 prog
        { scopes := [defaultFScope], conditional_count := 0 }).2 := rfl
    rw [hpp]
    unfold getBlockF
    rw [chainScopes_single _ scA hA hpB, List.foldl_cons, List.foldl_nil]
    rw [dget_dupdate_nil _ _ hbB]
    exact hvA
  · intro prog f body hmem
    obtain ⟨scA, hA, hvA⟩ := parseStmts_root_registers_func prog
      { scopes := [defaultFScope], conditional_count := 0 } f body defaultFScope
      hinit rfl hmem
    obtain ⟨scB, hB, hnB, hpB, -, hfB⟩ := parseStmts_root_inv prog
      { scopes := [defaultFScope], conditional_count := 0 } defaultFScope
      hinit hinitInv
    have hAB : scA = scB := by
      rw [hA] at hB
      exact (Option.some.injEq _ _).mp hB
    subst hAB
    have hpp : (parseProgram prog).2 = (parseStmts 0 prog
        { scopes := [defaultFScope], conditional_count := 0 }).2 := rfl
    rw [hpp]
    unfold getFuncF
    rw [chainScopes_single _ scA hA hpB, List.foldl_cons, List.foldl_nil]
    rw [dget_dupdate_nil _ _ hfB]
    exact hvA
  · intro c rest
    obtain ⟨sc0, h0, hf0⟩ := parseStmts_pres_fields 0 rest
      { scopes := [defaultFScope], conditional_count := 0 } 0 defaultFScope hinit
    have hp0 : sc0.parent = Option.none := hf0.2.1
    have hc0 : sc0.consts = [] := hf0.2.2.2.2
    have hchain := chainScopes_single _ sc0 h0 hp0
    have hconst : getConstF ((parseStmts 0 rest
        { scopes := [defaultFScope], conditional_count := 0 }).2).scopes 0 c =
        Option.none := by
      unfold getConstF
      rw [hchain, List.foldl_cons, List.foldl_nil, hc0]
      rfl
    have hexpr : exprTealF ((parseStmts 0 rest
        { scopes := [defaultFScope], conditional_count := 0 }).2).scopes 0
        (FExpr.constRef c) = Except.error ("unresolved name: " ++ c) := by
      rw [exprTealF_constRef, hconst]
    rw [compileFragment_eq]
    rw [show (parseProgram (FStmt.exitS (FExpr.constRef c) :: rest)).1 =
      AStmt.exitA (FExpr.constRef c) :: (parseStmts 0 rest
        { scopes := [defaultFScope], conditional_count := 0 }).1 from rfl]
    rw [show (parseProgram (FStmt.exitS (FExpr.constRef c) :: rest)).2 =
      (parseStmts 0 rest
        { scopes := [defaultFScope], conditional_count := 0 }).2 from rfl]
    rw [visitStmts_cons, visitStmt_exitA]
    rw [show ({ cs := initState, scopes := ((parseStmts 0 rest
        { scopes := [defaultFScope], conditional_count := 0 }).2).scopes } :
        VisitSt).scopes = ((parseStmts 0 rest
        { scopes := [defaultFScope], conditional_count := 0 }).2).scopes from rfl]
    rw [hexpr]
  · intro c ty v
    have h1 : visitStmt 0 (AStmt.constA c ty v)
        { cs := initState, scopes := [defaultFScope] } =
        Except.ok { cs := initState, scopes := [constScope c ty v] } := rfl
    have hg : getConstF [constScope c ty v] 0 c = some (ty, v) := by
      show dget [(c, (ty, v))] c = some (ty, v)
      show (if c = c then some (ty, v) else dget [] c) = some (ty, v)
      rw [if_pos rfl]
    have hexpr : exprTealF [constScope c ty v] 0
        (FExpr.constRef c) = Except.ok ["pushint " ++ Nat.repr v] := by
      rw [exprTealF_constRef, hg]
    rw [compileFragment_eq]
    rw [show (parseProgram [FStmt.constS c ty v,
        FStmt.exitS (FExpr.constRef c)]).1 =
      [AStmt.constA c ty v, AStmt.exitA (FExpr.constRef c)] from rfl]
    rw [show (parseProgram [FStmt.constS c ty v,
        FStmt.exitS (FExpr.constRef c)]).2.scopes = [defaultFScope] from rfl]
    rw [visitStmts_cons, h1]
    show (match visitStmts 0 [AStmt.exitA (FExpr.constRef c)]
        { cs := initState, scopes := [constScope c ty v] } with
      | Except.ok st => Except.ok st.cs.output
      | Except.error e => Except.error e) = _
    rw [visitStmts_cons, visitStmt_exitA]
    rw [show ({ cs := initState, scopes := [constScope c ty v] } :
        VisitSt).scopes = [constScope c ty v] from rfl]
    rw [hexpr]
    rfl
  · intro x k rest
    obtain ⟨sc0, h0, hf0⟩ := parseStmts_pres_fields 0 rest
      { scopes := [defaultFScope], conditional_count := 0 } 0 defaultFScope hinit
    have hp0 : sc0.parent = Option.none := hf0.2.1
    have hs0 : sc0.slots = [] := hf0.2.2.2.1
    have hchain := chainScopes_single _ sc0 h0 hp0
    have hvar : get_var ((scopeChain ((parseStmts 0 rest
        { scopes := [defaultFScope], conditional_count := 0 }).2).scopes 0).map
        toScopeE) x = Option.none := by
      rw [hchain]
      show dget (get_slots [toScopeE sc0]) x = Option.none
      unfold get_slots
      rw [List.foldl_cons, List.foldl_nil]
      show dget (dupdate [] sc0.slots) x = Option.none
      rw [hs0]
      rfl
    rw [compileFragment_eq]
    rw [show (parseProgram (FStmt.assignS x (FExpr.lit k) :: rest)).1 =
      AStmt.assignA x (FExpr.lit k) :: (parseStmts 0 rest
        { scopes := [defaultFScope], conditional_count := 0 }).1 from rfl]
    rw [show (parseProgram (FStmt.assignS x (FExpr.lit k) :: rest)).2 =
      (parseStmts 0 rest
        { scopes := [defaultFScope], conditional_count := 0 }).2 from rfl]
    rw [visitStmts_cons, visitStmt_assignA]
    rw [show ({ cs := initState, scopes := ((parseStmts 0 rest
        { scopes := [defaultFScope], conditional_count := 0 }).2).scopes } :
        VisitSt).scopes = ((parseStmts 0 rest
        { scopes := [defaultFScope], conditional_count := 0 }).2).scopes from rfl]
    rw [show exprTealF ((parseStmts 0 rest
        { scopes := [defaultFScope], conditional_count := 0 }).2).scopes 0
        (FExpr.lit k) = Except.ok ["pushint " ++ Nat.repr k] from rfl]
    rw [hvar]

mutual

/-- The conditional-counter values carried by a parsed tree, in
preorder (each if statement took one counter value in pass 1). -/
def ctrlIdx1 : AStmt → List Nat
  | .blockA _ _ _ body => ctrlIdxs body
  | .funcA _ _ _ body => ctrlIdxs body
  | .ifA _ _ idx thenB elseB =>
    idx :: (ctrlIdxs thenB ++
      (match elseB with
       | Option.none => []
       | some es => ctrlIdxs es))
  | .jumpA _ => []
  | .constA _ _ _ => []
  | .exitA _ => []
  | .callA _ => []
  | .intA _ _ => []
  | .assignA _ _ => []
  | .returnA => []

def ctrlIdxs : List AStmt → List Nat
  | [] => []
  | a :: rest => ctrlIdx1 a ++ ctrlIdxs rest

end

mutual

/-- The control-flow label strings minted in a parsed tree: each if
statement owns lN_end, plus lN_else when it carries an else branch
(IfStatement.__init__ builds both from its conditional index). -/
def ctrlLabels1 : AStmt → List String
  | .blockA _ _ _ body => ctrlLabels body
  | .funcA _ _ _ body => ctrlLabels body
  | .ifA _ _ idx thenB elseB =>
    (ctrlLbl idx "_end" ::
      (match elseB with
       | Option.none => []
       | some _ => [ctrlLbl idx "_else"])) ++
      (ctrlLabels thenB ++
        (match elseB with
         | Option.none => []
         | some es => ctrlLabels es))
  | .jumpA _ => []
  | .constA _ _ _ => []
  | .exitA _ => []
  | .callA _ => []
  | .intA _ _ => []
  | .assignA _ _ => []
  | .returnA => []

def ctrlLabels : List AStmt → List String
  | [] => []
  | a :: rest => ctrlLabels1 a ++ ctrlLabels rest

end

/-- Both labels an if statement can mint from counter value i. -/
def allLbls (is : List Nat) : List String :=
  is.flatMap (fun i => [ctrlLbl i "_end", ctrlLbl i "_else"])

mutual

theorem ctrlLabels1_sublist (a : AStmt) :
    (ctrlLabels1 a).Sublist (allLbls (ctrlIdx1 a)) := by
  cases a with
  | blockA n l c body => exact ctrlLabels_sublist body
  | funcA n l c body => exact ctrlLabels_sublist body
  | ifA ct teal idx thenB elseB =>
    cases elseB with
    | none =>
      show ((ctrlLbl idx "_end" :: ([] : List String)) ++
          (ctrlLabels thenB ++ [])).Sublist
        ([ctrlLbl idx "_end", ctrlLbl idx "_else"] ++
          allLbls (ctrlIdxs thenB ++ []))
      rw [List.append_nil, List.append_nil]
      exact List.Sublist.append
        (List.cons_sublist_cons.mpr (List.nil_sublist _))
        (ctrlLabels_sublist thenB)
    | some es =>
      show ((ctrlLbl idx "_end" :: [ctrlLbl idx "_else"]) ++
          (ctrlLabels thenB ++ ctrlLabels es)).Sublist
        ([ctrlLbl idx "_end", ctrlLbl idx "_else"] ++
          allLbls (ctrlIdxs thenB ++ ctrlIdxs es))
      have happ : allLbls (ctrlIdxs thenB ++ ctrlIdxs es) =
          allLbls (ctrlIdxs thenB) ++ allLbls (ctrlIdxs es) := by
        simp [allLbls]
      rw [happ]
      exact List.Sublist.append (List.Sublist.refl _)
        (List.Sublist.append (ctrlLabels_sublist thenB) (ctrlLabels_sublist es))
  | jumpA n => exact List.nil_sublist _
  | constA n ty v => exact List.nil_sublist _
  | exitA e => exact List.nil_sublist _
  | callA f => exact List.nil_sublist _
  | intA n v => exact List.nil_sublist _
  | assignA n e => exact List.nil_sublist _
  | returnA => exact List.nil_sublist _

theorem ctrlLabels_sublist (l : List AStmt) :
    (ctrlLabels l).Sublist (allLbls (ctrlIdxs l)) := by
  cases l with
  | nil => exact List.nil_sublist _
  | cons a rest =>
    show (ctrlLabels1 a ++ ctrlLabels rest).Sublist (allLbls (ctrlIdxs (a :: rest)))
    have happ : allLbls (ctrlIdx1 a ++ ctrlIdxs rest) =
        allLbls (ctrlIdx1 a) ++ allLbls (ctrlIdxs rest) := by
      simp [allLbls]
    rw [show ctrlIdxs (a :: rest) = ctrlIdx1 a ++ ctrlIdxs rest from rfl, happ]
    exact List.Sublist.append (ctrlLabels1_sublist a) (ctrlLabels_sublist rest)

end

theorem allLbls_nodup (s n : Nat) : (allLbls (List.range' s n)).Nodup := by
  have hrange : (List.range' s n).Nodup := List.nodup_range' s n 1 Nat.one_pos
  unfold allLbls
  rw [List.nodup_flatMap]
  constructor
  · intro x hx
    refine List.nodup_cons.mpr ⟨?_, List.nodup_singleton _⟩
    intro hmem
    have heq : ctrlLbl x "_end" = ctrlLbl x "_else" :=
      List.mem_singleton.mp hmem
    exact absurd (ctrlLbl_inj x x "_end" "_else" rfl rfl heq).2 (by decide)
  · refine List.Pairwise.imp ?_ hrange
    intro a b hab
    show List.Disjoint _ _
    intro x hxa hxb
    simp only [List.mem_cons, List.mem_singleton, List.not_mem_nil,
      or_false] at hxa hxb
    rcases hxa with rfl | rfl <;> rcases hxb with h | h
    · exact hab (ctrlLbl_inj a b "_end" "_end" rfl rfl h).1
    · exact absurd (ctrlLbl_inj a b "_end" "_else" rfl rfl h).2 (by decide)
    · exact absurd (ctrlLbl_inj a b "_else" "_end" rfl rfl h).2 (by decide)
    · exact hab (ctrlLbl_inj a b "_else" "_else" rfl rfl h).1

theorem range'_zero_self (c : Nat) :
    ([] : List Nat) = List.range' c (c - c) := by
  rw [Nat.sub_self]
  rfl

theorem range'_glue2 (c1 c2 c3 : Nat) (h1 : c1 ≤ c2) (h2 : c2 ≤ c3) :
    List.range' c1 (c2 - c1) ++ List.range' c2 (c3 - c2) =
      List.range' c1 (c3 - c1) := by
  have hA : c2 = c1 + (c2 - c1) := by omega
  have happ := List.range'_append_1 c1 (c2 - c1) (c3 - c2)
  rw [← hA] at happ
  rw [happ]
  have hmn : (c3 - c2) + (c2 - c1) = c3 - c1 := by omega
  rw [hmn]

theorem range'_glue (c1 c2 c3 : Nat) (h1 : c1 + 1 ≤ c2) (h2 : c2 ≤ c3) :
    c1 :: (List.range' (c1 + 1) (c2 - (c1 + 1)) ++ List.range' c2 (c3 - c2)) =
      List.range' c1 (c3 - c1) := by
  rw [range'_glue2 (c1 + 1) c2 c3 h1 h2]
  have h3 : c3 - c1 = (c3 - (c1 + 1)) + 1 := by omega
  rw [h3, List.range'_succ]

mutual

/-- The conditional counter is threaded left to right through pass 1, so
the counter values in the parsed tree are exactly the interval between
the counter before and after. -/
theorem parseStmt_ctrl (sid : Nat) (s : FStmt) (st : ParseSt) :
    st.conditional_count ≤ ((parseStmt sid s st).2).conditional_count ∧
    ctrlIdx1 (parseStmt sid s st).1 =
      List.range' st.conditional_count
        (((parseStmt sid s st).2).conditional_count - st.conditional_count) := by
  cases s with
  | blockS name body =>
    obtain ⟨hle, heq⟩ := parseStmts_ctrl
      (registerBlock st sid name
        (blockLabelOf (getScope st.scopes sid).name name)).scopes.length
      body
      (pushScope (registerBlock st sid name
        (blockLabelOf (getScope st.scopes sid).name name)) sid name).2
    have hcc : ((pushScope (registerBlock st sid name
        (blockLabelOf (getScope st.scopes sid).name name)) sid
        name).2).conditional_count = st.conditional_count := rfl
    rw [hcc] at hle heq
    constructor
    · rw [parseStmt_blockS_snd]
      exact hle
    · show ctrlIdxs (parseStmts
        (registerBlock st sid name
          (blockLabelOf (getScope st.scopes sid).name name)).scopes.length
        body
        (pushScope (registerBlock st sid name
          (blockLabelOf (getScope st.scopes sid).name name)) sid name).2).1 =
        List.range' st.conditional_count
          (((parseStmt sid (FStmt.blockS name body) st).2).conditional_count -
            st.conditional_count)
      rw [heq, parseStmt_blockS_snd]
  | funcS name body =>
    obtain ⟨hle, heq⟩ := parseStmts_ctrl
      (registerFunc st sid name
        (funcLabelOf (getScope st.scopes sid).name name)).scopes.length
      body
      (pushScope (registerFunc st sid name
        (funcLabelOf (getScope st.scopes sid).name name)) sid
        ("func__" ++ name)).2
    have hcc : ((pushScope (registerFunc st sid name
        (funcLabelOf (getScope st.scopes sid).name name)) sid
        ("func__" ++ name)).2).conditional_count = st.conditional_count := rfl
    rw [hcc] at hle heq
    constructor
    · rw [parseStmt_funcS_snd]
      exact hle
    · show ctrlIdxs (parseStmts
        (registerFunc st sid name
          (funcLabelOf (getScope st.scopes sid).name name)).scopes.length
        body
        (pushScope (registerFunc st sid name
          (funcLabelOf (getScope st.scopes sid).name name)) sid
          ("func__" ++ name)).2).1 =
        List.range' st.conditional_count
          (((parseStmt sid (FStmt.funcS name body) st).2).conditional_count -
            st.conditional_count)
      rw [heq, parseStmt_funcS_snd]
  | jumpS n => exact ⟨le_rfl, range'_zero_self st.conditional_count⟩
  | ifS ct teal thenB elseB =>
    cases elseB with
    | none =>
      obtain ⟨hle, heq⟩ := parseStmts_ctrl sid thenB
        { st with conditional_count := st.conditional_count + 1 }
      have hcc : ({ st with conditional_count := st.conditional_count + 1 } :
          ParseSt).conditional_count = st.conditional_count + 1 := rfl
      rw [hcc] at hle heq
      constructor
      · rw [parseStmt_ifS_none_snd]
        omega
      · show st.conditional_count ::
          (ctrlIdxs (parseStmts sid thenB
            { st with conditional_count := st.conditional_count + 1 }).1 ++ []) =
          List.range' st.conditional_count
            (((parseStmt sid (FStmt.ifS ct teal thenB Option.none)
              st).2).conditional_count - st.conditional_count)
        rw [List.append_nil, heq, parseStmt_ifS_none_snd]
        have h3 : (parseStmts sid thenB
            { st with conditional_count :=
              st.conditional_count + 1 }).2.conditional_count -
            st.conditional_count =
            ((parseStmts sid thenB
              { st with conditional_count :=
                st.conditional_count + 1 }).2.conditional_count -
              (st.conditional_count + 1)) + 1 := by omega
        rw [h3, List.range'_succ]
    | some es =>
      obtain ⟨hle1, heq1⟩ := parseStmts_ctrl sid thenB
        { st with conditional_count := st.conditional_count + 1 }
      obtain ⟨hle2, heq2⟩ := parseStmts_ctrl sid es
        (parseStmts sid thenB
          { st with conditional_count := st.conditional_count + 1 }).2
      have hcc : ({ st with conditional_count := st.conditional_count + 1 } :
          ParseSt).conditional_count = st.conditional_count + 1 := rfl
      rw [hcc] at hle1 heq1
      constructor
      · rw [parseStmt_ifS_some_snd]
        omega
      · show st.conditional_count ::
          (ctrlIdxs (parseStmts sid thenB
            { st with conditional_count := st.conditional_count + 1 }).1 ++
           ctrlIdxs (parseStmts sid es
            (parseStmts sid thenB
              { st with conditional_count := st.conditional_count + 1 }).2).1) =
          List.range' st.conditional_count
            (((parseStmt sid (FStmt.ifS ct teal thenB (some es))
              st).2).conditional_count - st.conditional_count)
        rw [heq1, heq2, parseStmt_ifS_some_snd]
        exact range'_glue st.conditional_count _ _ hle1 hle2
  | constS n ty v => exact ⟨le_rfl, range'_zero_self st.conditional_count⟩
  | exitS e => exact ⟨le_rfl, range'_zero_self st.conditional_count⟩
  | callS f => exact ⟨le_rfl, range'_zero_self st.conditional_count⟩
  | intS n v => exact ⟨le_rfl, range'_zero_self st.conditional_count⟩
  | assignS n e => exact ⟨le_rfl, range'_zero_self st.conditional_count⟩
  | returnS => exact ⟨le_rfl, range'_zero_self st.conditional_count⟩

theorem parseStmts_ctrl (sid : Nat) (ss : List FStmt) (st : ParseSt) :
    st.conditional_count ≤ ((parseStmts sid ss st).2).conditional_count ∧
    ctrlIdxs (parseStmts sid ss st).1 =
      List.range' st.conditional_count
        (((parseStmts sid ss st).2).conditional_count - st.conditional_count) := by
  cases ss with
  | nil => exact ⟨le_rfl, range'_zero_self st.conditional_count⟩
  | cons s rest =>
    obtain ⟨hle1, heq1⟩ := parseStmt_ctrl sid s st
    obtain ⟨hle2, heq2⟩ := parseStmts_ctrl sid rest (parseStmt sid s st).2
    constructor
    · rw [parseStmts_cons_snd]
      omega
    · show ctrlIdx1 (parseStmt sid s st).1 ++
        ctrlIdxs (parseStmts sid rest (parseStmt sid s st).2).1 =
        List.range' st.conditional_count
          (((parseStmts sid (s :: rest) st).2).conditional_count -
            st.conditional_count)
      rw [heq1, heq2, parseStmts_cons_snd]
      exact range'_glue2 st.conditional_count _ _ hle1 hle2

end

/-- C6 counterexample: two sibling blocks with the same name compile
without error, and the output defines the label foo twice while a jump
branches to it, so a branch target does not have exactly one label
definition. -/
theorem duplicate_block_label_accepted :
    compileFragment [FStmt.jumpS "foo", FStmt.blockS "foo" [],
      FStmt.blockS "foo" []] =
      Except.ok ["// jump foo", "b foo", "// block foo", "foo:",
        "// block foo", "foo:"] ∧
    (["// jump foo", "b foo", "// block foo", "foo:", "// block foo",
      "foo:"].count "foo:" ≠ 1) :=
  ⟨rfl, by decide⟩

/-- C6 (amended): the control-flow labels minted from the shared
monotonic conditional counter are pairwise distinct across the whole
unit, but block (and subroutine) labels are only the lexically qualified
names with no redeclaration check, so a unit with two same-named sibling
blocks is accepted and emits two definitions of the same label, which is
also the target of a branch. -/
theorem ctrl_labels_unique_but_block_labels_can_collide :
    (∀ prog : List FStmt, (ctrlLabels (parseProgram prog).1).Nodup) ∧
    (∃ out : List String,
      compileFragment [FStmt.jumpS "foo", FStmt.blockS "foo" [],
        FStmt.blockS "foo" []] = Except.ok out ∧
      "b foo" ∈ out ∧ out.count "foo:" = 2) := by
  constructor
  · intro prog
    obtain ⟨-, heq⟩ := parseStmts_ctrl 0 prog
      { scopes := [defaultFScope], conditional_count := 0 }
    have hsub := ctrlLabels_sublist (parseProgram prog).1
    have hpp : (parseProgram prog).1 = (parseStmts 0 prog
        { scopes := [defaultFScope], conditional_count := 0 }).1 := rfl
    rw [hpp] at hsub ⊢
    rw [heq] at hsub
    exact List.Nodup.sublist hsub (allLbls_nodup _ _)
  · exact ⟨["// jump foo", "b foo", "// block foo", "foo:", "// block foo",
      "foo:"], rfl, by decide, by decide⟩

/-- Witness for C7: a jump before its block resolves, a call before its
func resolves, a const use before its declaration fails, after it
succeeds, and an assignment to an undeclared variable fails. -/
theorem two_pass_forward_reference_asymmetry_witness :
    getBlockF ((parseProgram [FStmt.jumpS "foo",
      FStmt.blockS "foo" []]).2).scopes 0 "foo" = some "foo" ∧
    getFuncF ((parseProgram [FStmt.callS "f",
      FStmt.funcS "f" [FStmt.returnS]]).2).scopes 0 "f" = some ("__func__" ++ "f") ∧
    compileFragment [FStmt.exitS (FExpr.constRef "C"),
      FStmt.constS "C" StackType.int 7] =
      Except.error ("unresolved name: " ++ "C") ∧
    compileFragment [FStmt.constS "C" StackType.int 7,
      FStmt.exitS (FExpr.constRef "C")] =
      Except.ok ["// exit(" ++ "C" ++ ")", "pushint " ++ Nat.repr 7, "return"] ∧
    compileFragment [FStmt.assignS "y" (FExpr.lit 1)] =
      Except.error ("Var " ++ "y" ++ " not declared in current scope") := by
  refine ⟨?_, ?_, ?_, ?_, ?_⟩
  · exact two_pass_forward_reference_asymmetry.1 [FStmt.jumpS "foo",
      FStmt.blockS "foo" []] "foo" []
      (List.mem_cons_of_mem _ (List.mem_cons_self _ _))
  · exact two_pass_forward_reference_asymmetry.2.1 [FStmt.callS "f",
      FStmt.funcS "f" [FStmt.returnS]] "f" [FStmt.returnS]
      (List.mem_cons_of_mem _ (List.mem_cons_self _ _))
  · exact two_pass_forward_reference_asymmetry.2.2.1 "C"
      [FStmt.constS "C" StackType.int 7]
  · exact two_pass_forward_reference_asymmetry.2.2.2.1 "C" StackType.int 7
  · exact two_pass_forward_reference_asymmetry.2.2.2.2 "y" 1 []

end Tealish
